import Mathlib

/-!
# Verification of the valueset-api data-access, enrichment and ingestion layer

Shallow embedding of the core of the `valueset-api` repository:

* `app/schema.py`   — ORM rows and the JSON-text serialisation helpers,
* `app/database.py` — `get_valueset`, `list_valuesets`, `insert_valueset`,
* `app/config.py`   — pURL template settings,
* `app/dependencies.py` — `enrich_term_with_purl`,
* `ingestion/csv_loader.py` and `ingestion/cli.py` — the CSV pipeline.

The storage engine is modelled as in-memory lists of rows; the Python
standard-library `json` module is modelled by an executable encoder/parser
pair over a `Json` value type (floats are outside the model: the repository
never produces them on the serialisation path under verification, and the
claims do not exercise them).  Pydantic URL validation is an external
library; functions that depend on it take an abstract `validateUrl`
predicate as a parameter.
-/

set_option maxHeartbeats 1000000

namespace ValuesetApi

/-! ## JSON values

Model of the JSON-compatible Python values handled by `json.dumps` /
`json.loads` in `app/schema.py` and `ingestion/csv_loader.py`.  Numbers are
integers (no floats, see the header comment). -/

inductive Json where
  | null : Json
  | bool : Bool → Json
  | num : Int → Json
  | str : String → Json
  | arr : List Json → Json
  | obj : List (String × Json) → Json
deriving Repr, Inhabited

/-! ### Encoder: model of `json.dumps` with its default arguments
(separators are comma-space and colon-space).  Control characters, the
quote and the backslash are escaped as in CPython's encoder; characters
at or above U+0020 other than quote and backslash are emitted verbatim
(the `ensure_ascii` transliteration of non-ASCII characters only changes
the stored text, not the decoded value, and is not observable by any
claim, so it is not modelled). -/

def hexDigitChar (n : Nat) : Char :=
  if n < 10 then Char.ofNat (48 + n) else Char.ofNat (87 + n)

def escapeChar (c : Char) : List Char :=
  if c = '"' then ['\\', '"']
  else if c = '\\' then ['\\', '\\']
  else if c.toNat < 32 then
    ['\\', 'u', '0', '0', hexDigitChar (c.toNat / 16), hexDigitChar (c.toNat % 16)]
  else [c]

def encodeStringChars (s : String) : List Char :=
  '"' :: (s.data.flatMap escapeChar ++ ['"'])

def digitChar (d : Nat) : Char := Char.ofNat (48 + d)

def natChars (n : Nat) : List Char :=
  if n = 0 then ['0'] else (Nat.digits 10 n).reverse.map digitChar

def intChars : Int → List Char
  | Int.ofNat n => natChars n
  | Int.negSucc m => '-' :: natChars (m + 1)

mutual

def encodeJson : Json → List Char
  | .null => "null".data
  | .bool true => "true".data
  | .bool false => "false".data
  | .num n => intChars n
  | .str s => encodeStringChars s
  | .arr xs => '[' :: (encodeElems xs ++ [']'])
  | .obj kvs => '{' :: (encodeMembers kvs ++ ['}'])

def encodeElems : List Json → List Char
  | [] => []
  | [x] => encodeJson x
  | x :: y :: xs => encodeJson x ++ ',' :: ' ' :: encodeElems (y :: xs)

def encodeMembers : List (String × Json) → List Char
  | [] => []
  | [(k, v)] => encodeStringChars k ++ ':' :: ' ' :: encodeJson v
  | (k, v) :: m :: kvs =>
    encodeStringChars k ++ ':' :: ' ' :: (encodeJson v ++ ',' :: ' ' :: encodeMembers (m :: kvs))

end

def jsonDumps (j : Json) : String := String.mk (encodeJson j)

/-! ### Parser: model of `json.loads`.  Fails (returns `none`) exactly where
`json.loads` raises `JSONDecodeError`, on the integer fragment of JSON.
A fuel argument (instantiated with the input length plus one, which always
suffices because every parsed value consumes at least one character) makes
the mutual recursion structural. -/

def isWsChar (c : Char) : Bool := c = ' ' || c = '\t' || c = '\n' || c = '\r'

def skipWs (l : List Char) : List Char := l.dropWhile isWsChar

def hexVal (c : Char) : Option Nat :=
  if '0' ≤ c && c ≤ '9' then some (c.toNat - 48)
  else if 'a' ≤ c && c ≤ 'f' then some (c.toNat - 87)
  else if 'A' ≤ c && c ≤ 'F' then some (c.toNat - 55)
  else none

def parseStringBody : List Char → Option (List Char × List Char)
  | [] => none
  | c :: rest =>
    if c = '"' then some ([], rest)
    else if c = '\\' then
      match rest with
      | [] => none
      | e :: rest2 =>
        if e = '"' then (parseStringBody rest2).map (fun p => ('"' :: p.1, p.2))
        else if e = '\\' then (parseStringBody rest2).map (fun p => ('\\' :: p.1, p.2))
        else if e = '/' then (parseStringBody rest2).map (fun p => ('/' :: p.1, p.2))
        else if e = 'b' then (parseStringBody rest2).map (fun p => (Char.ofNat 8 :: p.1, p.2))
        else if e = 'f' then (parseStringBody rest2).map (fun p => (Char.ofNat 12 :: p.1, p.2))
        else if e = 'n' then (parseStringBody rest2).map (fun p => ('\n' :: p.1, p.2))
        else if e = 'r' then (parseStringBody rest2).map (fun p => (Char.ofNat 13 :: p.1, p.2))
        else if e = 't' then (parseStringBody rest2).map (fun p => ('\t' :: p.1, p.2))
        else if e = 'u' then
          match rest2 with
          | h1 :: h2 :: h3 :: h4 :: rest3 =>
            match hexVal h1, hexVal h2, hexVal h3, hexVal h4 with
            | some a, some b, some c3, some d =>
              (parseStringBody rest3).map
                (fun p => (Char.ofNat (4096 * a + 256 * b + 16 * c3 + d) :: p.1, p.2))
            | _, _, _, _ => none
          | _ => none
        else none
    else if c.toNat < 32 then none
    else (parseStringBody rest).map (fun p => (c :: p.1, p.2))

def expectChars : List Char → List Char → Option (List Char)
  | [], l => some l
  | _ :: _, [] => none
  | c :: cs, d :: ds => if c = d then expectChars cs ds else none

def parseNatChars (l : List Char) : Option (Nat × List Char) :=
  let ds := l.takeWhile Char.isDigit
  if ds.isEmpty then none
  else some (ds.foldl (fun a c => 10 * a + (c.toNat - 48)) 0, l.dropWhile Char.isDigit)

mutual

def parseValue : Nat → List Char → Option (Json × List Char)
  | 0, _ => none
  | fuel + 1, l =>
    match skipWs l with
    | [] => none
    | c :: rest =>
      if c = '"' then (parseStringBody rest).map (fun p => (.str (String.mk p.1), p.2))
      else if c = '[' then
        match skipWs rest with
        | [] => none
        | d :: rest2 =>
          if d = ']' then some (.arr [], rest2)
          else (parseElems fuel (d :: rest2)).map (fun p => (.arr p.1, p.2))
      else if c = '{' then
        match skipWs rest with
        | [] => none
        | d :: rest2 =>
          if d = '}' then some (.obj [], rest2)
          else (parseMembers fuel (d :: rest2)).map (fun p => (.obj p.1, p.2))
      else if c = 't' then (expectChars ['r', 'u', 'e'] rest).map (fun r => (.bool true, r))
      else if c = 'f' then (expectChars ['a', 'l', 's', 'e'] rest).map (fun r => (.bool false, r))
      else if c = 'n' then (expectChars ['u', 'l', 'l'] rest).map (fun r => (.null, r))
      else if c = '-' then (parseNatChars rest).map (fun p => (.num (-(p.1 : Int)), p.2))
      else if c.isDigit then (parseNatChars (c :: rest)).map (fun p => (.num (p.1 : Int), p.2))
      else none

def parseElems : Nat → List Char → Option (List Json × List Char)
  | 0, _ => none
  | fuel + 1, l =>
    match parseValue fuel l with
    | none => none
    | some (v, rest) =>
      match skipWs rest with
      | [] => none
      | c :: rest2 =>
        if c = ',' then (parseElems fuel rest2).map (fun p => (v :: p.1, p.2))
        else if c = ']' then some ([v], rest2)
        else none

def parseMembers : Nat → List Char → Option (List (String × Json) × List Char)
  | 0, _ => none
  | fuel + 1, l =>
    match skipWs l with
    | [] => none
    | c :: rest =>
      if c = '"' then
        match parseStringBody rest with
        | none => none
        | some (k, rest2) =>
          match skipWs rest2 with
          | [] => none
          | d :: rest3 =>
            if d = ':' then
              match parseValue fuel rest3 with
              | none => none
              | some (v, rest4) =>
                match skipWs rest4 with
                | [] => none
                | e :: rest5 =>
                  if e = ',' then
                    (parseMembers fuel rest5).map (fun p => ((String.mk k, v) :: p.1, p.2))
                  else if e = '}' then some ([(String.mk k, v)], rest5)
                  else none
            else none
      else none

end

def jsonLoads (s : String) : Option Json :=
  match parseValue (s.length + 1) s.data with
  | some (j, rest) => if skipWs rest = [] then some j else none
  | none => none

/-! Number of JSON values in a document; used to show that the parser fuel
`input length + 1` is always sufficient for a document the encoder produced. -/

mutual

def jweight : Json → Nat
  | .null => 1
  | .bool _ => 1
  | .num _ => 1
  | .str _ => 1
  | .arr xs => 1 + elemsWeight xs
  | .obj kvs => 1 + membersWeight kvs

def elemsWeight : List Json → Nat
  | [] => 0
  | x :: xs => 1 + jweight x + elemsWeight xs

def membersWeight : List (String × Json) → Nat
  | [] => 0
  | kv :: kvs => 1 + jweight kv.2 + membersWeight kvs

end

/-- The character list does not begin with an ASCII digit (side condition for
parsing a number followed by that list: the number parser is greedy). -/
def noDigitHead (l : List Char) : Prop :=
  ∀ c, l.head? = some c → c.isDigit = false

/-! ## ORM schema layer — `app/schema.py`

A `ValueSetORM` row and a `ValueSetValueORM` row, with the four JSON-text
columns stored as `Option String` (`None` ↔ SQL NULL), and the
serialisation helper methods `set_*` / `get_*`. -/

structure ValueSetRow where
  accession : String
  purl : String
  definition : String
  full_definition : String
deriving Repr, DecidableEq

structure ValueRow where
  accession : String
  valueset : String
  purl : Option String
  label : String
  value : String
  identical_terms : Option String
  similar_terms : Option String
  definition : String
  full_definition : String
  deprecated : Nat
  deprecated_to : Option String
  additional : Option String
deriving Repr, DecidableEq

/-- Extract a Python `List[str]` from a decoded JSON value.  The Python
getters return `json.loads(text)` under an unchecked `cast(List[str], ·)`;
for text the setters produced this is always an array of strings.  The
typed model totalises the cast: anything that is not an array of strings
becomes `[]` (such stored text is never produced by the code under
verification). -/
def jsonAsStr : Json → Option String
  | .str s => some s
  | _ => none

def strsOf : List Json → Option (List String)
  | [] => some []
  | x :: xs =>
    match jsonAsStr x, strsOf xs with
    | some s, some rest => some (s :: rest)
    | _, _ => none

def jsonStrList (j : Json) : List String :=
  match j with
  | .arr xs => (strsOf xs).getD []
  | _ => []

/-- `ValueSetValueORM.get_identical_terms` (schema.py:66-73): Python
truthiness makes both NULL and the empty string decode to `[]`;
a `JSONDecodeError` is recovered to `[]`. -/
def get_identical_terms (stored : Option String) : List String :=
  match stored with
  | none => []
  | some s =>
    if s = "" then []
    else
      match jsonLoads s with
      | none => []
      | some j => jsonStrList j

/-- `ValueSetValueORM.set_identical_terms` (schema.py:75-77):
`json.dumps(terms) if terms else None`. -/
def set_identical_terms (terms : List String) : Option String :=
  if terms.isEmpty then none else some (jsonDumps (.arr (terms.map Json.str)))

/-- `ValueSetValueORM.get_similar_terms` (schema.py:79-86), same body as
`get_identical_terms`. -/
def get_similar_terms (stored : Option String) : List String :=
  get_identical_terms stored

/-- `ValueSetValueORM.set_similar_terms` (schema.py:88-90). -/
def set_similar_terms (terms : List String) : Option String :=
  set_identical_terms terms

/-- `ValueSetValueORM.get_deprecated_to` (schema.py:92-99). -/
def get_deprecated_to (stored : Option String) : List String :=
  get_identical_terms stored

/-- `ValueSetValueORM.set_deprecated_to` (schema.py:101-103). -/
def set_deprecated_to (terms : List String) : Option String :=
  set_identical_terms terms

/-- `ValueSetValueORM.get_additional` (schema.py:105-112): decodes to a
Python dict, modelled as an association list in insertion order. -/
def get_additional (stored : Option String) : List (String × Json) :=
  match stored with
  | none => []
  | some s =>
    if s = "" then []
    else
      match jsonLoads s with
      | none => []
      | some j => match j with | .obj kvs => kvs | _ => []

/-- `ValueSetValueORM.set_additional` (schema.py:114-116):
`json.dumps(data) if data else None`. -/
def set_additional (data : List (String × Json)) : Option String :=
  if data.isEmpty then none else some (jsonDumps (.obj data))

/-! ## Pydantic domain models — `app/models.py`

`HttpUrl` values are modelled as their string form. -/

structure ValueSetValue where
  accession : String
  valueset : String
  pURL : Option String
  label : String
  value : String
  identical_terms : List String
  similar_terms : List String
  definition : String
  full_definition : String
  deprecated : Bool
  deprecated_to : List String
  additional : List (String × Json)
deriving Repr

structure ValueSet where
  accession : String
  pURL : String
  definition : String
  full_definition : String
  values : List ValueSetValue
deriving Repr

structure ValueSetSummary where
  accession : String
  pURL : String
  definition : String
  full_definition : String
  value_count : Nat
deriving Repr

/-! ## Data-access layer — `app/database.py`

The SQLite store is modelled as in-memory lists of rows. -/

structure DB where
  valuesets : List ValueSetRow
  values : List ValueRow
deriving Repr

/-- `_orm_to_valueset_value` (database.py:207-230).  `HttpUrl(orm.purl) if
orm.purl else None`: Python truthiness sends both NULL and the empty string
to `None`. -/
def ormToValuesetValue (orm : ValueRow) : ValueSetValue :=
  { accession := orm.accession
    valueset := orm.valueset
    pURL := match orm.purl with
      | none => none
      | some s => if s = "" then none else some s
    label := orm.label
    value := orm.value
    identical_terms := get_identical_terms orm.identical_terms
    similar_terms := get_similar_terms orm.similar_terms
    definition := orm.definition
    full_definition := orm.full_definition
    deprecated := orm.deprecated != 0
    deprecated_to := get_deprecated_to orm.deprecated_to
    additional := get_additional orm.additional }

/-- Row built by `insert_valueset` for one term (database.py:168-183).
`purl=str(value.pURL) if value.pURL else None`: an `HttpUrl` object is
always truthy, so this is the identity on the option. -/
def valueToRow (v : ValueSetValue) : ValueRow :=
  { accession := v.accession
    valueset := v.valueset
    purl := v.pURL
    label := v.label
    value := v.value
    identical_terms := set_identical_terms v.identical_terms
    similar_terms := set_similar_terms v.similar_terms
    definition := v.definition
    full_definition := v.full_definition
    deprecated := if v.deprecated then 1 else 0
    deprecated_to := set_deprecated_to v.deprecated_to
    additional := set_additional v.additional }

/-- ValueSet row built by `insert_valueset` (database.py:159-164). -/
def valuesetToRow (vs : ValueSet) : ValueSetRow :=
  { accession := vs.accession
    purl := vs.pURL
    definition := vs.definition
    full_definition := vs.full_definition }

/-- `get_valueset` (database.py:104-140): look up the ValueSet row, take its
associated value rows, drop deprecated ones unless `include_deprecated`,
convert, and sort by label (`values.sort(key=lambda x: x.label)`). -/
def get_valueset (db : DB) (ns : String) (includeDeprecated : Bool) : Option ValueSet :=
  match db.valuesets.find? (fun r => r.accession == ns) with
  | none => none
  | some vs =>
    let assoc := db.values.filter (fun v => v.valueset == ns)
    let vals :=
      if includeDeprecated then assoc.map ormToValuesetValue
      else (assoc.filter (fun v => v.deprecated == 0)).map ormToValuesetValue
    some { accession := vs.accession
           pURL := vs.purl
           definition := vs.definition
           full_definition := vs.full_definition
           values := vals.mergeSort (fun a b => a.label ≤ b.label) }

/-- One step of the aggregate `GROUP BY valueset / COUNT` query of
`list_valuesets` (database.py:83-87). -/
def bumpCount : List (String × Nat) → String → List (String × Nat)
  | [], k => [(k, 1)]
  | p :: rest, k => if p.1 == k then (p.1, p.2 + 1) :: rest else p :: bumpCount rest k

def groupCounts (values : List ValueRow) : List (String × Nat) :=
  values.foldl (fun acc v => bumpCount acc v.valueset) []

/-- `counts.get(accession, 0)` on the result of the aggregate query. -/
def countsGet (counts : List (String × Nat)) (k : String) : Nat :=
  match counts.find? (fun p => p.1 == k) with
  | some p => p.2
  | none => 0

/-- `list_valuesets` (database.py:69-101): all ValueSet rows ordered by
accession, each with the term count from the one aggregate query. -/
def list_valuesets (db : DB) : List ValueSetSummary :=
  let results := db.valuesets.mergeSort (fun a b => a.accession ≤ b.accession)
  let counts := groupCounts db.values
  results.map (fun vs =>
    { accession := vs.accession
      pURL := vs.purl
      definition := vs.definition
      full_definition := vs.full_definition
      value_count := countsGet counts vs.accession })

/-- `insert_valueset` (database.py:143-187): if a ValueSet row with this
accession exists, delete it and (by the `cascade="all, delete-orphan"`
relationship of schema.py:27-29) all value rows belonging to it, then
append the new row and its value rows. -/
def insert_valueset (db : DB) (vs : ValueSet) : DB :=
  let db1 :=
    if db.valuesets.any (fun r => r.accession == vs.accession) then
      { valuesets := db.valuesets.filter (fun r => !(r.accession == vs.accession))
        values := db.values.filter (fun v => !(v.valueset == vs.accession)) }
    else db
  { valuesets := db1.valuesets ++ [valuesetToRow vs]
    values := db1.values ++ vs.values.map valueToRow }

/-- `get_term` (database.py:49-66). -/
def get_term (db : DB) (accession : String) : Option ValueSetValue :=
  (db.values.find? (fun v => v.accession == accession)).map ormToValuesetValue

/-! ## Configuration and pURL enrichment — `app/config.py`, `app/dependencies.py` -/

structure Settings where
  purl_base_url : String := "https://api.example.com"
  purl_valueset_template : String := "{base_url}/valuesets/{accession}"
  purl_term_template : String := "{base_url}/terms/{accession}"
deriving Repr

/-- Characters of a replacement-field name up to the closing brace, and the
remainder after it. -/
def readFieldName : List Char → List Char × List Char
  | [] => ([], [])
  | c :: rest =>
    if c = '}' then ([], rest)
    else
      let p := readFieldName rest
      (c :: p.1, p.2)

/-- Single pass of Python `str.format(base_url=…, accession=…)` over the
template, for templates whose replacement fields are `base_url` and
`accession` (the only fields the configured templates use; `{{`/`}}`
escapes, format specs and the `KeyError` on unknown fields are outside the
modelled subset).  Fuel is the template length, which always suffices. -/
def pyFormatAux (b a : String) : Nat → List Char → List Char
  | 0, _ => []
  | _, [] => []
  | fuel + 1, c :: rest =>
    if c = '{' then
      let p := readFieldName rest
      (if String.mk p.1 = "base_url" then b.data
       else if String.mk p.1 = "accession" then a.data
       else '{' :: (p.1 ++ ['}'])) ++ pyFormatAux b a fuel p.2
    else c :: pyFormatAux b a fuel rest

def pyFormat (tmpl : String) (b a : String) : String :=
  String.mk (pyFormatAux b a tmpl.data.length tmpl.data)

/-- Python `s.rstrip("/")`. -/
def rstripSlash (s : String) : String :=
  String.mk ((s.data.reverse.dropWhile (fun c => c = '/')).reverse)

/-- `Settings.generate_purl_valueset` (config.py:57-61). -/
def generate_purl_valueset (st : Settings) (accession : String) : String :=
  pyFormat st.purl_valueset_template (rstripSlash st.purl_base_url) accession

/-- `Settings.generate_purl_term` (config.py:63-67). -/
def generate_purl_term (st : Settings) (accession : String) : String :=
  pyFormat st.purl_term_template (rstripSlash st.purl_base_url) accession

/-- `enrich_term_with_purl` (dependencies.py:25-37): when the term has no
pURL, rebuild the model with the generated pURL (a `model_dump` /
re-validate round trip that leaves every other field unchanged); otherwise
return the term as is. -/
def enrich_term_with_purl (st : Settings) (term : ValueSetValue) : ValueSetValue :=
  match term.pURL with
  | none => { term with pURL := some (generate_purl_term st term.accession) }
  | some _ => term

/-! ## CSV ingestion — `ingestion/csv_loader.py`

A CSV file is modelled after line-level parsing: a list of records, each a
list of field strings; the first record is the header.  `csv.DictReader`
semantics: each data record becomes a mapping from the header names to the
record's fields, short records padded with `None` (`restval`).  Pydantic
`HttpUrl` validation is an external library and enters as the abstract
`validateUrl` parameter. -/

abbrev CsvRecord := List String

abbrev Row := List (String × Option String)

def zipHeader : List String → List String → Row
  | [], _ => []
  | h :: hs, [] => (h, none) :: zipHeader hs []
  | h :: hs, v :: vs => (h, some v) :: zipHeader hs vs

def dictReaderRows : List CsvRecord → List Row
  | [] => []
  | header :: records => records.map (zipHeader header)

/-- `row.get(key, dflt)`. -/
def rowGetD (row : Row) (key : String) (dflt : Option String) : Option String :=
  match row.find? (fun p => p.1 == key) with
  | some p => p.2
  | none => dflt

/-- `row[key]`; a missing key is Python's `KeyError`, caught by the loader's
generic `except` clause. -/
def rowItem (row : Row) (key : String) : Except String (Option String) :=
  match row.find? (fun p => p.1 == key) with
  | some p => Except.ok p.2
  | none => Except.error ("Unexpected error: " ++ key)

/-- Python `str(x)` on a string-or-None cell. -/
def pyStr : Option String → String
  | some s => s
  | none => "None"

/-- Python `str.isspace` characters relevant to `str.strip()`. -/
def isPySpace (c : Char) : Bool :=
  c = ' ' || c = '\t' || c = '\n' || c = '\r' || c.toNat = 11 || c.toNat = 12

/-- Python `s.strip()`. -/
def pyTrim (s : String) : String :=
  String.mk (((s.data.dropWhile isPySpace).reverse.dropWhile isPySpace).reverse)

/-- Python `s.lower()` on the ASCII range (the truthy-token comparison of
the loader only involves ASCII tokens). -/
def toLowerChar (c : Char) : Char :=
  if 'A' ≤ c && c ≤ 'Z' then Char.ofNat (c.toNat + 32) else c

def pyLower (s : String) : String := String.mk (s.data.map toLowerChar)

/-- Python `x.strip()` on a string-or-None cell; `None` has no `strip`
attribute (`AttributeError`, caught by the loader's generic `except`). -/
def pyStrip : Option String → Except String String
  | some s => Except.ok (pyTrim s)
  | none => Except.error "Unexpected error: NoneType has no attribute strip"

/-- Python truthiness of a JSON-compatible value. -/
def pyTruthy : Json → Bool
  | .null => false
  | .bool b => b
  | .num n => !(n == 0)
  | .str s => !(s == "")
  | .arr xs => !xs.isEmpty
  | .obj kvs => !kvs.isEmpty

/-- `x or []` (csv_loader.py:145-151). -/
def jsonOrEmptyArr (j : Json) : Json := if pyTruthy j then j else .arr []

/-- `x or {}` (csv_loader.py:151). -/
def jsonOrEmptyObj (j : Json) : Json := if pyTruthy j then j else .obj []

def chPrefix (pat l : List Char) : Bool :=
  match pat, l with
  | [], _ => true
  | _ :: _, [] => false
  | p :: ps, x :: xs => if p = x then chPrefix ps xs else false

def chInfix (sub : List Char) : List Char → Bool
  | [] => sub.isEmpty
  | c :: rest => chPrefix sub (c :: rest) || chInfix sub rest

/-- Python `sub in s` (substring containment). -/
def strContains (s sub : String) : Bool := chInfix sub.data s.data

/-- `CSVLoader.parse_json_field` (csv_loader.py:46-76): empty/missing cells
and undecodable JSON fall back to the default selected by the field name. -/
def parse_json_field (value : Option String) (fieldName : String) : Json :=
  let dflt : Json :=
    if strContains (pyLower fieldName) "terms"
        || strContains (pyLower fieldName) "deprecated_to" then
      .arr []
    else if strContains (pyLower fieldName) "additional" then .obj []
    else .null
  match value with
  | none => dflt
  | some s =>
    if s = "" then dflt
    else
      match jsonLoads s with
      | some j => j
      | none => dflt

/-- Pydantic validation of `Optional[HttpUrl]`. -/
def pydanticOptUrl (validateUrl : String → Bool) (p : Option String) :
    Except String (Option String) :=
  match p with
  | none => Except.ok none
  | some s =>
    if validateUrl s then Except.ok (some s)
    else Except.error "Validation error: invalid URL"

/-- Pydantic validation of `List[HttpUrl]` on a decoded JSON value. -/
def pydanticUrlList (validateUrl : String → Bool) (j : Json) :
    Except String (List String) :=
  match j with
  | .arr xs => xs.mapM (fun x =>
      match jsonAsStr x with
      | some s =>
        if validateUrl s then Except.ok s
        else Except.error "Validation error: invalid URL in list"
      | none => Except.error "Validation error: URL item is not a string")
  | _ => Except.error "Validation error: value is not a list"

/-- Pydantic validation of `List[str]` on a decoded JSON value. -/
def pydanticStrList (j : Json) : Except String (List String) :=
  match j with
  | .arr xs => xs.mapM (fun x =>
      match jsonAsStr x with
      | some s => Except.ok s
      | none => Except.error "Validation error: item is not a string")
  | _ => Except.error "Validation error: value is not a list"

/-- Pydantic validation of `Dict[str, Any]` on a decoded JSON value. -/
def pydanticDict (j : Json) : Except String (List (String × Json)) :=
  match j with
  | .obj kvs => Except.ok kvs
  | _ => Except.error "Validation error: value is not a dict"

/-- The body of the per-row `try` block of `load_valueset_from_csv`
(csv_loader.py:120-153): field extraction, the lenient JSON parses, pURL
blank-to-absent, the truthy-token `deprecated` parse, and the pydantic
`ValueSetValue` construction.  Error strings carry the
`Validation error:` / `Unexpected error:` prefix the two `except` clauses
attach. -/
def buildRowValue (validateUrl : String → Bool) (vsAcc : String) (row : Row) :
    Except String ValueSetValue := do
  let identicalJ := parse_json_field (rowGetD row "identical_terms" (some "")) "identical_terms"
  let similarJ := parse_json_field (rowGetD row "similar_terms" (some "")) "similar_terms"
  let deprecatedToJ := parse_json_field (rowGetD row "deprecated_to" (some "")) "deprecated_to"
  let additionalJ := parse_json_field (rowGetD row "additional" (some "")) "additional"
  let purlRaw ← pyStrip (rowGetD row "pURL" (some ""))
  let purl := if purlRaw == "" then none else some purlRaw
  let deprecatedRaw ← pyStrip (rowGetD row "deprecated" (some ""))
  let deprecated := ["true", "1", "yes", "y", "t"].contains (pyLower deprecatedRaw)
  let accessionV ← rowItem row "accession"
  let labelV ← rowItem row "label"
  let valueV ← rowItem row "value"
  let definitionV ← rowItem row "definition"
  let fullDefinitionV ← rowItem row "full_definition"
  let purlOk ← pydanticOptUrl validateUrl purl
  let identical ← pydanticUrlList validateUrl (jsonOrEmptyArr identicalJ)
  let similar ← pydanticUrlList validateUrl (jsonOrEmptyArr similarJ)
  let deprecatedTo ← pydanticStrList (jsonOrEmptyArr deprecatedToJ)
  let additional ← pydanticDict (jsonOrEmptyObj additionalJ)
  return { accession := pyStr accessionV
           valueset := vsAcc
           pURL := purlOk
           label := pyStr labelV
           value := pyStr valueV
           identical_terms := identical
           similar_terms := similar
           definition := pyStr definitionV
           full_definition := pyStr fullDefinitionV
           deprecated := deprecated
           deprecated_to := deprecatedTo
           additional := additional }

def requiredColumns : List String := ["accession", "label", "value", "definition", "full_definition"]

def squote : String := String.mk [Char.ofNat 39]

/-- Python `str` of a list of strings, as interpolated into the
missing-columns error message. -/
def pyListRepr (l : List String) : String :=
  "[" ++ String.intercalate ", " (l.map (fun s => squote ++ s ++ squote)) ++ "]"

structure ValueSetMeta where
  definition : String
  full_definition : String
deriving Repr

/-- The per-row error list accumulated by `load_valueset_from_csv`
(csv_loader.py:119-162), with each entry labelled by its human-facing row
number `index + 2`. -/
def rowErrors (validateUrl : String → Bool) (vsAcc : String) (rows : List Row) : List String :=
  rows.enum.filterMap (fun p =>
    match buildRowValue validateUrl vsAcc p.2 with
    | Except.error e => some ("Row " ++ toString (p.1 + 2) ++ ": " ++ e)
    | Except.ok _ => none)

/-- The successfully parsed values of `load_valueset_from_csv`. -/
def rowValues (validateUrl : String → Bool) (vsAcc : String) (rows : List Row) :
    List ValueSetValue :=
  rows.filterMap (fun row => (buildRowValue validateUrl vsAcc row).toOption)

/-- `CSVLoader.load_valueset_from_csv` (csv_loader.py:78-178). -/
def load_valueset_from_csv (st : Settings) (validateUrl : String → Bool)
    (csvRows : List CsvRecord) (valuesetAccession : String) (meta : ValueSetMeta) :
    Except String ValueSet :=
  let rows := dictReaderRows csvRows
  if rows.isEmpty then Except.error "CSV file is empty"
  else
    let fieldnames := (rows.headD []).map Prod.fst
    let missing := requiredColumns.filter (fun c => !(fieldnames.contains c))
    if !missing.isEmpty then
      Except.error ("CSV missing required columns: " ++ pyListRepr missing)
    else
      let errors := rowErrors validateUrl valuesetAccession rows
      if !errors.isEmpty then
        Except.error ("Failed to parse " ++ toString errors.length ++ " rows:\n"
          ++ String.intercalate "\n" (errors.take 10))
      else
        Except.ok { accession := valuesetAccession
                    pURL := generate_purl_valueset st valuesetAccession
                    definition := meta.definition
                    full_definition := meta.full_definition
                    values := rowValues validateUrl valuesetAccession rows }

/-- `CSVLoader.ingest_csv` (csv_loader.py:180-222): default the accession to
the file stem and the two definitions to the templated placeholders
(`is None` checks), load, and on success insert in one transaction.  On a
load error nothing reaches the store: the result is the error and the
store argument is unchanged. -/
def ingest_csv (st : Settings) (validateUrl : String → Bool) (db : DB)
    (csvStem : String) (csvRows : List CsvRecord)
    (valuesetAccession definition fullDefinition : Option String) : Except String DB :=
  let acc := valuesetAccession.getD csvStem
  let d := definition.getD ("ValueSet: " ++ acc)
  let fd := fullDefinition.getD ("Full definition for " ++ acc)
  match load_valueset_from_csv st validateUrl csvRows acc
      { definition := d, full_definition := fd } with
  | Except.error e => Except.error e
  | Except.ok vs => Except.ok (insert_valueset db vs)

/-- Per-accession metadata loaded from the YAML file
(`yaml_metadata.get(accession, {})` with `.get("definition")` /
`.get("full_definition")`). -/
structure YamlEntry where
  definition : Option String := none
  full_definition : Option String := none
deriving Repr

def yamlGet (yaml : List (String × YamlEntry)) (acc : String) : YamlEntry :=
  match yaml.find? (fun p => p.1 == acc) with
  | some p => p.2
  | none => {}

/-- `CSVLoader.ingest_directory` (csv_loader.py:224-250): each file is
ingested under its stem with the YAML metadata for that stem; a failing
file is logged and skipped.  A directory is modelled as the list of
(stem, parsed records) pairs. -/
def ingest_directory (st : Settings) (validateUrl : String → Bool) (db : DB)
    (files : List (String × List CsvRecord)) (yaml : List (String × YamlEntry)) : DB :=
  files.foldl (fun acc file =>
    let dm := yamlGet yaml file.1
    match ingest_csv st validateUrl acc file.1 file.2 (some file.1)
        dm.definition dm.full_definition with
    | Except.ok db2 => db2
    | Except.error _ => acc) db

/-! ## CLI — `ingestion/cli.py` -/

/-- Python `a or b` where `a` is an optional string: `None` and the empty
string both fall through. -/
def pyOrStr (a : Option String) (b : String) : String :=
  match a with
  | some s => if s == "" then b else s
  | none => b

inductive CliInput where
  | singleFile (stem : String) (csvRows : List CsvRecord)
  | directory (files : List (String × List CsvRecord))

/-- The ingestion branch of `cli.main` (cli.py:113-147).  In single-file
mode the metadata precedence of cli.py:117-132 is applied; in directory
mode the loader is called with the YAML metadata only — the `--accession`,
`--definition` and `--full-definition` arguments are not consulted. -/
def cliRun (st : Settings) (validateUrl : String → Bool) (db : DB) (input : CliInput)
    (argsAccession argsDefinition argsFullDefinition : Option String)
    (yaml : List (String × YamlEntry)) : Except String DB :=
  match input with
  | .singleFile stem csvRows =>
    let accession := pyOrStr argsAccession stem
    let dm := yamlGet yaml accession
    let definition := pyOrStr argsDefinition (pyOrStr dm.definition ("ValueSet: " ++ accession))
    let fullDefinition :=
      pyOrStr argsFullDefinition (pyOrStr dm.full_definition ("Full definition for " ++ accession))
    ingest_csv st validateUrl db stem csvRows (some accession) (some definition)
      (some fullDefinition)
  | .directory files => Except.ok (ingest_directory st validateUrl db files yaml)

/-! ## Concrete fixtures (used to instantiate theorems at concrete inputs) -/

def rowA : ValueSetRow :=
  { accession := "a", purl := "http://p/a", definition := "da", full_definition := "fda" }

def valA1 : ValueRow :=
  { accession := "t1", valueset := "a", purl := none, label := "m", value := "v1"
    identical_terms := none, similar_terms := none, definition := "d1", full_definition := "f1"
    deprecated := 0, deprecated_to := none, additional := none }

def valA2 : ValueRow :=
  { accession := "t2", valueset := "a", purl := none, label := "k", value := "v2"
    identical_terms := none, similar_terms := none, definition := "d2", full_definition := "f2"
    deprecated := 1, deprecated_to := none, additional := none }

def dbW : DB := { valuesets := [rowA], values := [valA1, valA2] }

def termW : ValueSetValue :=
  { accession := "SNOMED:73211009", valueset := "a", pURL := none, label := "L", value := "v"
    identical_terms := [], similar_terms := [], definition := "d", full_definition := "f"
    deprecated := false, deprecated_to := [], additional := [] }

def vsW : ValueSet :=
  { accession := "a", pURL := "http://p/a2", definition := "nd", full_definition := "nfd"
    values := [termW] }

def csvHeaderW : CsvRecord := ["accession", "label", "value", "definition", "full_definition", "pURL"]

def csvGoodRowW : CsvRecord := ["T:1", "L1", "v1", "d1", "fd1", ""]

def csvBadRowW : CsvRecord := ["T:2", "L2", "v2", "d2", "fd2", "not a url"]

def csvRecordsW : List CsvRecord := [csvGoodRowW, csvGoodRowW, csvBadRowW]

def csvNoLabelHeaderW : CsvRecord := ["accession", "value", "definition", "full_definition"]

/-- URL validator stand-in used for concrete instantiations: accepts strings
with an `http` scheme prefix. -/
def vUrlW : String → Bool := fun s =>
  chPrefix "http://".data s.data || chPrefix "https://".data s.data

def summaryW : ValueSetSummary :=
  { accession := "a", pURL := "http://p/a", definition := "da", full_definition := "fda"
    value_count := 2 }

/-! ## Theorems

### JSON encoder/parser round trip -/

theorem skipWs_cons_not_ws {c : Char} (h : isWsChar c = false) (l : List Char) :
    skipWs (c :: l) = c :: l := by
  simp [skipWs, List.dropWhile_cons, h]

theorem hexVal_hexDigitChar {m : Nat} (h : m < 16) : hexVal (hexDigitChar m) = some m := by
  interval_cases m <;> decide

theorem parseStringBody_escape (cs rest : List Char) :
    parseStringBody (cs.flatMap escapeChar ++ '"' :: rest) = some (cs, rest) := by
  induction cs with
  | nil =>
    rw [List.flatMap_nil, List.nil_append, parseStringBody.eq_def]
    simp
  | cons c cs ih =>
    by_cases h1 : c = '"'
    · subst h1
      simp only [List.flatMap_cons, escapeChar, if_pos rfl, List.cons_append, List.nil_append,
        List.append_assoc]
      rw [parseStringBody.eq_def]
      simp [ih]
    · by_cases h2 : c = '\\'
      · subst h2
        simp only [List.flatMap_cons, escapeChar, if_neg (by decide : ¬('\\' : Char) = '"'),
          if_pos rfl, List.cons_append, List.nil_append, List.append_assoc]
        rw [parseStringBody.eq_def]
        simp [ih]
      · by_cases h3 : c.toNat < 32
        · have hd1 : c.toNat / 16 < 16 := by omega
          have hd2 : c.toNat % 16 < 16 := by omega
          simp only [List.flatMap_cons, escapeChar, if_neg h1, if_neg h2, if_pos h3,
            List.append_assoc, List.cons_append, List.nil_append]
          rw [parseStringBody.eq_def]
          simp only [hexVal_hexDigitChar hd1, hexVal_hexDigitChar hd2, ih]
          have harith : 16 * (c.toNat / 16) + c.toNat % 16 = c.toNat := by omega
          have h0 : hexVal '0' = some 0 := by decide
          rw [h0]
          simp [harith, Char.ofNat_toNat]
        · simp only [List.flatMap_cons, escapeChar, if_neg h1, if_neg h2, if_neg h3,
            List.cons_append, List.nil_append]
          rw [parseStringBody.eq_def]
          simp [h1, h2, h3, ih]

theorem digitChar_toNat {d : Nat} (h : d < 10) : (digitChar d).toNat = 48 + d := by
  interval_cases d <;> decide

theorem digitChar_isDigit {d : Nat} (h : d < 10) : (digitChar d).isDigit = true := by
  interval_cases d <;> decide

theorem natChars_all_digits (n : Nat) : ∀ c ∈ natChars n, c.isDigit = true := by
  intro c hc
  unfold natChars at hc
  split at hc
  · simp at hc
    subst hc
    decide
  · simp only [List.mem_map, List.mem_reverse] at hc
    obtain ⟨d, hd, rfl⟩ := hc
    exact digitChar_isDigit (Nat.digits_lt_base (by norm_num) hd)

theorem natChars_ne_nil (n : Nat) : natChars n ≠ [] := by
  unfold natChars
  split
  · simp
  · simp [Nat.digits_ne_nil_iff_ne_zero, *]

theorem takeWhile_all_append {p : Char → Bool} :
    ∀ (ds rest : List Char), (∀ c ∈ ds, p c = true) →
      (∀ c, rest.head? = some c → p c = false) →
      (ds ++ rest).takeWhile p = ds ∧ (ds ++ rest).dropWhile p = rest := by
  intro ds
  induction ds with
  | nil =>
    intro rest _ hrest
    cases rest with
    | nil => simp
    | cons r t =>
      have hr := hrest r rfl
      simp [List.takeWhile_cons, List.dropWhile_cons, hr]
  | cons d ds ih =>
    intro rest hds hrest
    have hd := hds d (by simp)
    have := ih rest (fun c hc => hds c (by simp [hc])) hrest
    simp [List.takeWhile_cons, List.dropWhile_cons, hd, this.1, this.2]

theorem foldl_digitChars :
    ∀ (L : List Nat) (a : Nat), (∀ d ∈ L, d < 10) →
      (L.reverse.map digitChar).foldl (fun x c => 10 * x + (c.toNat - 48)) a
        = a * 10 ^ L.length + Nat.ofDigits 10 L := by
  intro L
  induction L with
  | nil => simp
  | cons d L ih =>
    intro a h
    have hd : d < 10 := h d (by simp)
    have hL : ∀ x ∈ L, x < 10 := fun x hx => h x (by simp [hx])
    rw [List.reverse_cons, List.map_append, List.foldl_append, ih a hL]
    simp only [List.map_cons, List.map_nil, List.foldl_cons, List.foldl_nil]
    rw [digitChar_toNat hd, Nat.ofDigits_cons]
    have h48 : 48 + d - 48 = d := by omega
    rw [h48]
    simp only [List.length_cons, pow_succ]
    ring

theorem foldl_natChars (n : Nat) :
    (natChars n).foldl (fun x c => 10 * x + (c.toNat - 48)) 0 = n := by
  unfold natChars
  split
  · next h =>
    subst h
    decide
  · rw [foldl_digitChars _ 0 (fun d hd => Nat.digits_lt_base (by norm_num) hd)]
    simp [Nat.ofDigits_digits]

theorem parseNatChars_natChars (n : Nat) (rest : List Char)
    (hrest : ∀ c, rest.head? = some c → c.isDigit = false) :
    parseNatChars (natChars n ++ rest) = some (n, rest) := by
  obtain ⟨htake, hdrop⟩ :=
    takeWhile_all_append (natChars n) rest (natChars_all_digits n) hrest
  simp only [parseNatChars, htake, hdrop, List.isEmpty_iff]
  rw [if_neg (natChars_ne_nil n)]
  simp [foldl_natChars]

theorem ne_of_isDigit {c d : Char} (h : c.isDigit = true) (hd : d.isDigit = false) : c ≠ d := by
  intro e
  subst e
  simp [h] at hd

theorem isWsChar_false_of_isDigit {c : Char} (h : c.isDigit = true) : isWsChar c = false := by
  cases hbool : isWsChar c with
  | false => rfl
  | true =>
    exfalso
    simp only [isWsChar, Bool.or_eq_true, decide_eq_true_eq] at hbool
    rcases hbool with ((h1 | h1) | h1) | h1 <;> (subst h1; exact absurd h (by decide))

theorem encodeJson_head (j : Json) :
    ∃ c t, encodeJson j = c :: t ∧ isWsChar c = false ∧ c ≠ ']' ∧ c ≠ '}' := by
  cases j with
  | null => exact ⟨'n', ['u', 'l', 'l'], rfl, by decide, by decide, by decide⟩
  | bool b =>
    cases b with
    | false => exact ⟨'f', ['a', 'l', 's', 'e'], rfl, by decide, by decide, by decide⟩
    | true => exact ⟨'t', ['r', 'u', 'e'], rfl, by decide, by decide, by decide⟩
  | str s => exact ⟨'"', _, rfl, by decide, by decide, by decide⟩
  | num n =>
    cases n with
    | ofNat m =>
      obtain ⟨c, t, hct⟩ := List.exists_cons_of_ne_nil (natChars_ne_nil m)
      have hdig : c.isDigit = true := natChars_all_digits m c (by rw [hct]; simp)
      refine ⟨c, t, ?_, isWsChar_false_of_isDigit hdig, ne_of_isDigit hdig (by decide),
        ne_of_isDigit hdig (by decide)⟩
      show natChars m = c :: t
      exact hct
    | negSucc m => exact ⟨'-', natChars (m + 1), rfl, by decide, by decide, by decide⟩
  | arr xs => exact ⟨'[', _, rfl, by decide, by decide, by decide⟩
  | obj kvs => exact ⟨'{', _, rfl, by decide, by decide, by decide⟩

theorem encodeMembers_head (k : String) (v : Json) (kvs : List (String × Json)) :
    ∃ t, encodeMembers ((k, v) :: kvs) = '"' :: t := by
  cases kvs with
  | nil => exact ⟨_, rfl⟩
  | cons m kvs => exact ⟨_, rfl⟩

theorem skipWs_cons_ws {c : Char} (h : isWsChar c = true) (l : List Char) :
    skipWs (c :: l) = skipWs l := by
  simp [skipWs, List.dropWhile_cons, h]

theorem parseValue_cons_ws (g : Nat) {c : Char} (h : isWsChar c = true) (l : List Char) :
    parseValue g (c :: l) = parseValue g l := by
  cases g with
  | zero => rfl
  | succ g =>
    have hs := skipWs_cons_ws h l
    conv_lhs => rw [parseValue.eq_def]
    conv_rhs => rw [parseValue.eq_def]
    simp only [hs]

theorem parseElems_cons_ws (g : Nat) {c : Char} (h : isWsChar c = true) (l : List Char) :
    parseElems g (c :: l) = parseElems g l := by
  cases g with
  | zero => rfl
  | succ g =>
    have hs := parseValue_cons_ws g h l
    conv_lhs => rw [parseElems.eq_def]
    conv_rhs => rw [parseElems.eq_def]
    simp only [hs]

theorem parseMembers_cons_ws (g : Nat) {c : Char} (h : isWsChar c = true) (l : List Char) :
    parseMembers g (c :: l) = parseMembers g l := by
  cases g with
  | zero => rfl
  | succ g =>
    have hs := skipWs_cons_ws h l
    conv_lhs => rw [parseMembers.eq_def]
    conv_rhs => rw [parseMembers.eq_def]
    simp only [hs]

theorem jweight_pos (j : Json) : 1 ≤ jweight j := by
  cases j <;> simp [jweight]

theorem elemsWeight_cons_pos (x : Json) (xs : List Json) : 1 ≤ elemsWeight (x :: xs) := by
  simp [elemsWeight]
  omega

theorem membersWeight_cons_pos (kv : String × Json) (kvs : List (String × Json)) :
    1 ≤ membersWeight (kv :: kvs) := by
  simp [membersWeight]
  omega

mutual

theorem jweight_le_encode : ∀ j : Json, jweight j ≤ (encodeJson j).length
  | .null => by simp [jweight, encodeJson]
  | .bool b => by cases b <;> simp [jweight, encodeJson]
  | .num n => by
    cases n with
    | ofNat m =>
      have h := List.length_pos.mpr (natChars_ne_nil m)
      simp only [jweight, encodeJson, intChars]
      omega
    | negSucc m =>
      simp only [jweight, encodeJson, intChars, List.length_cons]
      omega
  | .str s => by
    simp only [jweight, encodeJson, encodeStringChars, List.length_cons]
    omega
  | .arr xs => by
    have h := elemsWeight_le_encode xs
    simp only [jweight, encodeJson, List.length_cons, List.length_append, List.length_nil]
    omega
  | .obj kvs => by
    have h := membersWeight_le_encode kvs
    simp only [jweight, encodeJson, List.length_cons, List.length_append, List.length_nil]
    omega

theorem elemsWeight_le_encode : ∀ xs : List Json, elemsWeight xs ≤ (encodeElems xs).length + 1
  | [] => by simp [elemsWeight, encodeElems]
  | [x] => by
    have h := jweight_le_encode x
    simp only [elemsWeight, encodeElems]
    omega
  | x :: y :: xs => by
    have h1 := jweight_le_encode x
    have h2 := elemsWeight_le_encode (y :: xs)
    simp only [elemsWeight] at h2 ⊢
    simp only [encodeElems, List.length_append, List.length_cons]
    omega

theorem membersWeight_le_encode : ∀ kvs : List (String × Json),
    membersWeight kvs ≤ (encodeMembers kvs).length + 1
  | [] => by simp [membersWeight, encodeMembers]
  | [(k, v)] => by
    have h := jweight_le_encode v
    simp only [membersWeight, encodeMembers, List.length_append, List.length_cons]
    omega
  | (k, v) :: m :: kvs => by
    have h1 := jweight_le_encode v
    have h2 := membersWeight_le_encode (m :: kvs)
    simp only [membersWeight] at h2 ⊢
    simp only [encodeMembers, List.length_append, List.length_cons]
    omega

end

theorem noDigitHead_cons {c : Char} (h : c.isDigit = false) (l : List Char) :
    noDigitHead (c :: l) := by
  intro d hd
  simp only [List.head?_cons, Option.some.injEq] at hd
  subst hd
  exact h

theorem parse_encode_all : ∀ fuel : Nat,
    (∀ j rest, jweight j ≤ fuel → noDigitHead rest →
        parseValue fuel (encodeJson j ++ rest) = some (j, rest)) ∧
    (∀ xs rest, xs ≠ [] → elemsWeight xs ≤ fuel →
        parseElems fuel (encodeElems xs ++ ']' :: rest) = some (xs, rest)) ∧
    (∀ kvs rest, kvs ≠ [] → membersWeight kvs ≤ fuel →
        parseMembers fuel (encodeMembers kvs ++ '}' :: rest) = some (kvs, rest)) := by
  intro fuel
  induction fuel with
  | zero =>
    refine ⟨?_, ?_, ?_⟩
    · intro j _ hw _
      exact absurd hw (by have := jweight_pos j; omega)
    · intro xs _ hne hw
      cases xs with
      | nil => exact absurd rfl hne
      | cons x xs => exact absurd hw (by have := elemsWeight_cons_pos x xs; omega)
    · intro kvs _ hne hw
      cases kvs with
      | nil => exact absurd rfl hne
      | cons kv kvs => exact absurd hw (by have := membersWeight_cons_pos kv kvs; omega)
  | succ fuel ih =>
    obtain ⟨ihV, ihE, ihM⟩ := ih
    refine ⟨?_, ?_, ?_⟩
    · -- value clause
      intro j rest hw hrest
      cases j with
      | null => rfl
      | bool b => cases b <;> rfl
      | str s =>
        have hshape : encodeJson (.str s) ++ rest
            = '"' :: (s.data.flatMap escapeChar ++ '"' :: rest) := by
          show ('"' :: (s.data.flatMap escapeChar ++ ['"'])) ++ rest = _
          simp
        rw [hshape]
        have hred : parseValue (fuel + 1) ('"' :: (s.data.flatMap escapeChar ++ '"' :: rest))
            = (parseStringBody (s.data.flatMap escapeChar ++ '"' :: rest)).map
                (fun p => (Json.str (String.mk p.1), p.2)) := rfl
        rw [hred, parseStringBody_escape]
        rfl
      | num n =>
        cases n with
        | ofNat m =>
          obtain ⟨c, t, hct⟩ := List.exists_cons_of_ne_nil (natChars_ne_nil m)
          have hdig : c.isDigit = true := natChars_all_digits m c (by rw [hct]; simp)
          have hws := isWsChar_false_of_isDigit hdig
          have h1 : ¬c = '"' := ne_of_isDigit hdig (by decide)
          have h2 : ¬c = '[' := ne_of_isDigit hdig (by decide)
          have h3 : ¬c = '{' := ne_of_isDigit hdig (by decide)
          have h4 : ¬c = 't' := ne_of_isDigit hdig (by decide)
          have h5 : ¬c = 'f' := ne_of_isDigit hdig (by decide)
          have h6 : ¬c = 'n' := ne_of_isDigit hdig (by decide)
          have h7 : ¬c = '-' := ne_of_isDigit hdig (by decide)
          have hshape : encodeJson (.num (Int.ofNat m)) ++ rest = c :: (t ++ rest) := by
            show intChars (Int.ofNat m) ++ rest = _
            rw [show intChars (Int.ofNat m) = natChars m from rfl, hct]
            simp
          rw [hshape]
          conv_lhs => rw [parseValue.eq_def]
          simp only [skipWs_cons_not_ws hws, h1, h2, h3, h4, h5, h6, h7, hdig,
            if_false, if_true, ite_false, ite_true]
          rw [show c :: (t ++ rest) = natChars m ++ rest by rw [hct]; simp,
            parseNatChars_natChars m rest hrest]
          rfl
        | negSucc m =>
          have hshape : encodeJson (.num (Int.negSucc m)) ++ rest
              = '-' :: (natChars (m + 1) ++ rest) := by
            show ('-' :: natChars (m + 1)) ++ rest = _
            simp
          rw [hshape]
          have hred : parseValue (fuel + 1) ('-' :: (natChars (m + 1) ++ rest))
              = (parseNatChars (natChars (m + 1) ++ rest)).map
                  (fun p => (Json.num (-(p.1 : Int)), p.2)) := rfl
          rw [hred, parseNatChars_natChars _ rest hrest]
          simp [Int.negSucc_eq]
      | arr xs =>
        cases xs with
        | nil => rfl
        | cons x xs' =>
          obtain ⟨c, t, hct, hws, hne1, _⟩ := encodeJson_head x
          have ht2 : ∃ t2, encodeElems (x :: xs') = c :: t2 := by
            cases xs' with
            | nil => exact ⟨t, by rw [show encodeElems [x] = encodeJson x from rfl, hct]⟩
            | cons y ys =>
              refine ⟨t ++ ',' :: ' ' :: encodeElems (y :: ys), ?_⟩
              rw [show encodeElems (x :: y :: ys)
                  = encodeJson x ++ ',' :: ' ' :: encodeElems (y :: ys) from rfl, hct]
              simp
          obtain ⟨t2, ht2⟩ := ht2
          have hback : c :: (t2 ++ ']' :: rest) = encodeElems (x :: xs') ++ ']' :: rest := by
            rw [ht2]
            simp
          have hwE : elemsWeight (x :: xs') ≤ fuel := by
            simp only [jweight] at hw
            omega
          have hE := ihE (x :: xs') rest (by simp) hwE
          have hshape : encodeJson (.arr (x :: xs')) ++ rest = '[' :: (c :: (t2 ++ ']' :: rest)) := by
            show ('[' :: (encodeElems (x :: xs') ++ [']'])) ++ rest = _
            rw [ht2]
            simp
          rw [hshape]
          conv_lhs => rw [parseValue.eq_def]
          simp only [skipWs_cons_not_ws (show isWsChar '[' = false by decide),
            skipWs_cons_not_ws hws]
          simp [hne1, hback, hE]
      | obj kvs =>
        cases kvs with
        | nil => rfl
        | cons kv kvs' =>
          obtain ⟨k, v⟩ := kv
          obtain ⟨t, ht⟩ := encodeMembers_head k v kvs'
          have hback : '"' :: (t ++ '}' :: rest) = encodeMembers ((k, v) :: kvs') ++ '}' :: rest := by
            rw [ht]
            simp
          have hwM : membersWeight ((k, v) :: kvs') ≤ fuel := by
            simp only [jweight] at hw
            omega
          have hM := ihM ((k, v) :: kvs') rest (by simp) hwM
          have hshape : encodeJson (.obj ((k, v) :: kvs')) ++ rest
              = '{' :: ('"' :: (t ++ '}' :: rest)) := by
            show ('{' :: (encodeMembers ((k, v) :: kvs') ++ ['}'])) ++ rest = _
            rw [ht]
            simp
          rw [hshape]
          conv_lhs => rw [parseValue.eq_def]
          simp only [skipWs_cons_not_ws (show isWsChar '{' = false by decide),
            skipWs_cons_not_ws (show isWsChar '"' = false by decide)]
          simp [hback, hM]
    · -- elements clause
      intro xs rest hne hw
      cases xs with
      | nil => exact absurd rfl hne
      | cons x xs' =>
        cases xs' with
        | nil =>
          have hwV : jweight x ≤ fuel := by
            simp only [elemsWeight] at hw
            omega
          have hV := ihV x (']' :: rest) hwV (noDigitHead_cons (by decide) rest)
          conv_lhs => rw [parseElems.eq_def]
          rw [show encodeElems [x] = encodeJson x from rfl]
          simp only [hV]
          simp [skipWs_cons_not_ws (show isWsChar ']' = false by decide)]
        | cons y ys =>
          have hwV : jweight x ≤ fuel := by
            simp only [elemsWeight] at hw
            omega
          have hwE : elemsWeight (y :: ys) ≤ fuel := by
            simp only [elemsWeight] at hw ⊢
            omega
          have hV := ihV x (',' :: ' ' :: (encodeElems (y :: ys) ++ ']' :: rest)) hwV
            (noDigitHead_cons (by decide) _)
          have hE := ihE (y :: ys) rest (by simp) hwE
          have hshape : encodeElems (x :: y :: ys) ++ ']' :: rest
              = encodeJson x ++ (',' :: ' ' :: (encodeElems (y :: ys) ++ ']' :: rest)) := by
            rw [show encodeElems (x :: y :: ys)
                = encodeJson x ++ ',' :: ' ' :: encodeElems (y :: ys) from rfl]
            simp
          rw [hshape]
          conv_lhs => rw [parseElems.eq_def]
          simp only [hV]
          simp only [skipWs_cons_not_ws (show isWsChar ',' = false by decide)]
          simp only [parseElems_cons_ws fuel (show isWsChar ' ' = true by decide)]
          simp [hE]
    · -- members clause
      intro kvs rest hne hw
      cases kvs with
      | nil => exact absurd rfl hne
      | cons kv kvs' =>
        obtain ⟨k, v⟩ := kv
        have hwV : jweight v ≤ fuel := by
          simp only [membersWeight] at hw
          omega
        cases kvs' with
        | nil =>
          have hV := ihV v ('}' :: rest) hwV (noDigitHead_cons (by decide) rest)
          have hshape : encodeMembers [(k, v)] ++ '}' :: rest
              = '"' :: (k.data.flatMap escapeChar
                  ++ '"' :: (':' :: ' ' :: (encodeJson v ++ '}' :: rest))) := by
            rw [show encodeMembers [(k, v)]
                = encodeStringChars k ++ ':' :: ' ' :: encodeJson v from rfl]
            simp [encodeStringChars]
          rw [hshape]
          conv_lhs => rw [parseMembers.eq_def]
          simp only [skipWs_cons_not_ws (show isWsChar '"' = false by decide)]
          rw [parseStringBody_escape]
          simp only [skipWs_cons_not_ws (show isWsChar ':' = false by decide)]
          simp only [parseValue_cons_ws fuel (show isWsChar ' ' = true by decide)]
          simp only [hV]
          simp [skipWs_cons_not_ws (show isWsChar '}' = false by decide)]
        | cons kv2 kvs2 =>
          have hwM : membersWeight (kv2 :: kvs2) ≤ fuel := by
            simp only [membersWeight] at hw ⊢
            omega
          have hV := ihV v
            (',' :: ' ' :: (encodeMembers (kv2 :: kvs2) ++ '}' :: rest)) hwV
            (noDigitHead_cons (by decide) _)
          have hM := ihM (kv2 :: kvs2) rest (by simp) hwM
          have hshape : encodeMembers ((k, v) :: kv2 :: kvs2) ++ '}' :: rest
              = '"' :: (k.data.flatMap escapeChar
                  ++ '"' :: (':' :: ' ' :: (encodeJson v
                      ++ ',' :: ' ' :: (encodeMembers (kv2 :: kvs2) ++ '}' :: rest)))) := by
            rw [show encodeMembers ((k, v) :: kv2 :: kvs2)
                = encodeStringChars k ++ ':' :: ' '
                    :: (encodeJson v ++ ',' :: ' ' :: encodeMembers (kv2 :: kvs2)) from rfl]
            simp [encodeStringChars]
          rw [hshape]
          conv_lhs => rw [parseMembers.eq_def]
          simp only [skipWs_cons_not_ws (show isWsChar '"' = false by decide)]
          rw [parseStringBody_escape]
          simp only [skipWs_cons_not_ws (show isWsChar ':' = false by decide)]
          simp only [parseValue_cons_ws fuel (show isWsChar ' ' = true by decide)]
          simp only [hV]
          simp only [skipWs_cons_not_ws (show isWsChar ',' = false by decide)]
          simp only [parseMembers_cons_ws fuel (show isWsChar ' ' = true by decide)]
          simp [hM]

/-- `json.loads` is a left inverse of `json.dumps`: the JSON round trip. -/
theorem jsonLoads_dumps (j : Json) : jsonLoads (jsonDumps j) = some j := by
  have hlen : (jsonDumps j).length = (encodeJson j).length := rfl
  have hfuel : jweight j ≤ (jsonDumps j).length + 1 := by
    have := jweight_le_encode j
    omega
  have h := (parse_encode_all ((jsonDumps j).length + 1)).1 j [] hfuel (by intro c hc; simp at hc)
  rw [List.append_nil] at h
  simp only [jsonLoads]
  rw [show (jsonDumps j).data = encodeJson j from rfl, h]
  rfl

theorem jsonDumps_ne_empty (j : Json) : jsonDumps j ≠ "" := by
  obtain ⟨c, t, hct, -, -, -⟩ := encodeJson_head j
  simp [jsonDumps, hct, String.ext_iff]

theorem strsOf_map_str (l : List String) : strsOf (l.map Json.str) = some l := by
  induction l with
  | nil => rfl
  | cons s l ih => simp [strsOf, jsonAsStr, ih]

/-! ### C3: the JSON-text column contract of `ValueSetValueORM` -/

/-- Claim C3: for each JSON-valued column of a term (`identical_terms`,
`similar_terms`, `deprecated_to`, `additional`), serialising an empty
collection stores NULL rather than an empty-array literal, serialising a
non-empty collection stores its JSON text, deserialising NULL yields the
empty collection, deserialising corrupt (non-JSON) stored text yields the
empty collection/mapping without raising, and store-then-reload of any
collection value returns an equal collection (for `additional`, any
association with distinct keys, as every Python dict has). -/
theorem C3_json_columns_round_trip :
    (∀ l : List String,
      (l = [] → set_identical_terms l = none)
      ∧ (l ≠ [] → ∃ s, set_identical_terms l = some s ∧ s ≠ ""
          ∧ jsonLoads s = some (.arr (l.map Json.str)))
      ∧ get_identical_terms (set_identical_terms l) = l
      ∧ set_similar_terms l = set_identical_terms l
      ∧ get_similar_terms (set_similar_terms l) = l
      ∧ set_deprecated_to l = set_identical_terms l
      ∧ get_deprecated_to (set_deprecated_to l) = l)
    ∧ (get_identical_terms none = [] ∧ get_similar_terms none = []
        ∧ get_deprecated_to none = [] ∧ get_additional none = [])
    ∧ (∀ s, jsonLoads s = none →
        get_identical_terms (some s) = [] ∧ get_similar_terms (some s) = []
        ∧ get_deprecated_to (some s) = [] ∧ get_additional (some s) = [])
    ∧ (∀ d : List (String × Json),
        (d = [] → set_additional d = none)
        ∧ (d ≠ [] → ∃ s, set_additional d = some s ∧ s ≠ ""
            ∧ jsonLoads s = some (.obj d))
        ∧ ((d.map Prod.fst).Nodup → get_additional (set_additional d) = d)) := by
  have hlist : ∀ l : List String, get_identical_terms (set_identical_terms l) = l := by
    intro l
    cases l with
    | nil => rfl
    | cons s l =>
      rw [show set_identical_terms (s :: l)
          = some (jsonDumps (.arr ((s :: l).map Json.str))) from rfl]
      rw [get_identical_terms, if_neg (jsonDumps_ne_empty _), jsonLoads_dumps]
      simp only [jsonStrList, ← List.map_cons, strsOf_map_str, Option.getD_some]
  refine ⟨?_, ⟨rfl, rfl, rfl, rfl⟩, ?_, ?_⟩
  · intro l
    refine ⟨?_, ?_, hlist l, rfl, hlist l, rfl, hlist l⟩
    · intro h
      subst h
      rfl
    · intro h
      refine ⟨jsonDumps (.arr (l.map Json.str)), ?_, jsonDumps_ne_empty _, jsonLoads_dumps _⟩
      rw [set_identical_terms, if_neg (by simpa [List.isEmpty_iff] using h)]
  · intro s hs
    by_cases h : s = ""
    · subst h
      exact ⟨rfl, rfl, rfl, rfl⟩
    · refine ⟨?_, ?_, ?_, ?_⟩ <;>
        simp [get_identical_terms, get_similar_terms, get_deprecated_to, get_additional, h, hs]
  · intro d
    refine ⟨?_, ?_, ?_⟩
    · intro h
      subst h
      rfl
    · intro h
      refine ⟨jsonDumps (.obj d), ?_, jsonDumps_ne_empty _, jsonLoads_dumps _⟩
      rw [set_additional, if_neg (by simpa [List.isEmpty_iff] using h)]
    · intro _
      cases d with
      | nil => rfl
      | cons kv d =>
        rw [show set_additional (kv :: d) = some (jsonDumps (.obj (kv :: d))) from rfl]
        rw [get_additional, if_neg (jsonDumps_ne_empty _), jsonLoads_dumps]

/-! ### C1: `get_valueset` deprecation filtering and label ordering -/

/-- Claim C1: for a stored vocabulary, `get_valueset` with
`include_deprecated = true` returns all its N values, with
`include_deprecated = false` exactly the values whose deprecated flag is
false (N − K of them, where K is the number of deprecated rows), and in
both cases the returned list is sorted by label ascending. -/
theorem C1_get_valueset_filter_sort (db : DB) (ns : String) (row : ValueSetRow)
    (hrow : db.valuesets.find? (fun r => r.accession == ns) = some row) :
    ∃ vt vf,
      get_valueset db ns true = some vt
      ∧ get_valueset db ns false = some vf
      ∧ List.Perm vt.values
          ((db.values.filter (fun v => v.valueset == ns)).map ormToValuesetValue)
      ∧ List.Perm vf.values
          (((db.values.filter (fun v => v.valueset == ns)).filter
              (fun v => v.deprecated == 0)).map ormToValuesetValue)
      ∧ vt.values.length = (db.values.filter (fun v => v.valueset == ns)).length
      ∧ vf.values.length
          = (db.values.filter (fun v => v.valueset == ns)).length
            - ((db.values.filter (fun v => v.valueset == ns)).filter
                (fun v => !(v.deprecated == 0))).length
      ∧ (∀ v ∈ vf.values, v.deprecated = false)
      ∧ vt.values.Pairwise (fun a b => a.label ≤ b.label)
      ∧ vf.values.Pairwise (fun a b => a.label ≤ b.label) := by
  have htrans : ∀ a b c : ValueSetValue,
      (fun a b : ValueSetValue => decide (a.label ≤ b.label)) a b = true →
      (fun a b : ValueSetValue => decide (a.label ≤ b.label)) b c = true →
      (fun a b : ValueSetValue => decide (a.label ≤ b.label)) a c = true := by
    intro a b c hab hbc
    simp only [decide_eq_true_eq] at *
    exact le_trans hab hbc
  have htotal : ∀ a b : ValueSetValue,
      ((fun a b : ValueSetValue => decide (a.label ≤ b.label)) a b
        || (fun a b : ValueSetValue => decide (a.label ≤ b.label)) b a) = true := by
    intro a b
    simpa using le_total a.label b.label
  have ht : get_valueset db ns true
      = some { accession := row.accession, pURL := row.purl, definition := row.definition
               full_definition := row.full_definition
               values := ((db.values.filter (fun v => v.valueset == ns)).map
                   ormToValuesetValue).mergeSort
                     (fun a b => decide (a.label ≤ b.label)) } := by
    simp [get_valueset, hrow]
  have hf : get_valueset db ns false
      = some { accession := row.accession, pURL := row.purl, definition := row.definition
               full_definition := row.full_definition
               values := (((db.values.filter (fun v => v.valueset == ns)).filter
                   (fun v => v.deprecated == 0)).map ormToValuesetValue).mergeSort
                     (fun a b => decide (a.label ≤ b.label)) } := by
    simp [get_valueset, hrow]
  refine ⟨_, _, ht, hf, ?_, ?_, ?_, ?_, ?_, ?_, ?_⟩
  · exact List.mergeSort_perm _ _
  · exact List.mergeSort_perm _ _
  · simp
  · have hsplit := List.length_eq_length_filter_add
      (l := db.values.filter (fun v => v.valueset == ns)) (fun v => v.deprecated == 0)
    simp only [List.length_mergeSort, List.length_map]
    omega
  · intro v hv
    simp only [List.mem_mergeSort, List.mem_map] at hv
    obtain ⟨u, hu, rfl⟩ := hv
    have hdep : (u.deprecated == 0) = true := (List.mem_filter.mp hu).2
    have hdep' : u.deprecated = 0 := by simpa using hdep
    simp [ormToValuesetValue, hdep']
  · exact (List.sorted_mergeSort htrans htotal _).imp (fun h => by simpa using h)
  · exact (List.sorted_mergeSort htrans htotal _).imp (fun h => by simpa using h)

/-- Witness for C1 at a concrete store. -/
theorem C1_witness :
    dbW.valuesets.find? (fun r => r.accession == "a") = some rowA
    ∧ ∃ vt vf,
        get_valueset dbW "a" true = some vt
        ∧ get_valueset dbW "a" false = some vf
        ∧ List.Perm vt.values
            ((dbW.values.filter (fun v => v.valueset == "a")).map ormToValuesetValue)
        ∧ List.Perm vf.values
            (((dbW.values.filter (fun v => v.valueset == "a")).filter
                (fun v => v.deprecated == 0)).map ormToValuesetValue)
        ∧ vt.values.length = (dbW.values.filter (fun v => v.valueset == "a")).length
        ∧ vf.values.length
            = (dbW.values.filter (fun v => v.valueset == "a")).length
              - ((dbW.values.filter (fun v => v.valueset == "a")).filter
                  (fun v => !(v.deprecated == 0))).length
        ∧ (∀ v ∈ vf.values, v.deprecated = false)
        ∧ vt.values.Pairwise (fun a b => a.label ≤ b.label)
        ∧ vf.values.Pairwise (fun a b => a.label ≤ b.label) :=
  ⟨by decide, C1_get_valueset_filter_sort dbW "a" rowA (by decide)⟩

/-! ### CSV loader support lemmas -/

theorem zipHeader_keys : ∀ (header rec : List String),
    (zipHeader header rec).map Prod.fst = header := by
  intro header
  induction header with
  | nil => intro rec; cases rec <;> rfl
  | cons h hs ih =>
    intro rec
    cases rec with
    | nil => simp [zipHeader, ih []]
    | cons v vs => simp [zipHeader, ih vs]

theorem mem_enumFrom_of_get? : ∀ (l : List Row) (n i : Nat) (row : Row),
    l.get? i = some row → (n + i, row) ∈ List.enumFrom n l := by
  intro l
  induction l with
  | nil => intro n i row h; simp at h
  | cons r l ih =>
    intro n i row h
    cases i with
    | zero =>
      simp only [List.get?_cons_zero, Option.some.injEq] at h
      subst h
      simp [List.enumFrom]
    | succ i =>
      simp only [List.get?_cons_succ] at h
      have hmem := ih (n + 1) i row h
      have harith : n + (i + 1) = n + 1 + i := by omega
      simp only [List.enumFrom, List.mem_cons]
      right
      rw [harith]
      exact hmem

theorem rowErrors_mem (v : String → Bool) (a : String) (rows : List Row) (i : Nat)
    (row : Row) (e : String) (hget : rows.get? i = some row)
    (herr : buildRowValue v a row = Except.error e) :
    ("Row " ++ toString (i + 2) ++ ": " ++ e) ∈ rowErrors v a rows := by
  have hmem : (i, row) ∈ rows.enum := by
    have := mem_enumFrom_of_get? rows 0 i row hget
    simpa [List.enum] using this
  exact List.mem_filterMap.mpr ⟨(i, row), hmem, by simp [herr]⟩

theorem rowErrors_nil_all_ok (v : String → Bool) (a : String) (rows : List Row)
    (h : rowErrors v a rows = []) :
    ∀ r ∈ rows, ∃ val, buildRowValue v a r = Except.ok val := by
  intro r hr
  have hr2 : r ∈ rows.enum.map Prod.snd := by
    rw [List.enum_map_snd]
    exact hr
  obtain ⟨p, hp, hpr⟩ := List.mem_map.mp hr2
  have hnone := List.filterMap_eq_nil_iff.mp h p hp
  cases hb : buildRowValue v a p.2 with
  | error e => rw [hb] at hnone; simp at hnone
  | ok val => exact ⟨val, hpr ▸ hb⟩

theorem rowValues_length_all_ok (v : String → Bool) (a : String) : ∀ (rows : List Row),
    (∀ r ∈ rows, ∃ val, buildRowValue v a r = Except.ok val) →
    (rowValues v a rows).length = rows.length := by
  intro rows
  induction rows with
  | nil => intro _; rfl
  | cons r rows ih =>
    intro h
    obtain ⟨val, hval⟩ := h r (by simp)
    have ih' := ih (fun r' hr' => h r' (by simp [hr']))
    simp only [rowValues] at ih'
    simp only [rowValues, List.filterMap_cons, hval, Except.toOption, List.length_cons]
    simp only [Except.toOption] at ih'
    rw [ih']

theorem load_ok_fields (st : Settings) (v : String → Bool) (csvRows : List CsvRecord)
    (acc : String) (meta : ValueSetMeta) (vs : ValueSet)
    (h : load_valueset_from_csv st v csvRows acc meta = Except.ok vs) :
    vs.accession = acc ∧ vs.definition = meta.definition
      ∧ vs.full_definition = meta.full_definition
      ∧ vs.values = rowValues v acc (dictReaderRows csvRows)
      ∧ rowErrors v acc (dictReaderRows csvRows) = []
      ∧ dictReaderRows csvRows ≠ [] := by
  simp only [load_valueset_from_csv] at h
  split_ifs at h with h1 h2 h3
  all_goals cases h
  exact ⟨rfl, rfl, rfl, rfl, by simpa [List.isEmpty_iff] using h3,
    by simpa [List.isEmpty_iff] using h1⟩

theorem insert_valueset_filter_valuesets (db : DB) (vs : ValueSet) :
    (insert_valueset db vs).valuesets.filter (fun r => r.accession == vs.accession)
      = [valuesetToRow vs] := by
  by_cases hex : db.valuesets.any (fun r => r.accession == vs.accession)
  · have hdrop2 : (db.valuesets.filter (fun r => !(r.accession == vs.accession))).filter
        (fun r => r.accession == vs.accession) = [] := by
      apply List.filter_eq_nil_iff.mpr
      intro r hr
      have hrr := (List.mem_filter.mp hr).2
      simp at hrr
      simp [hrr]
    simp only [insert_valueset, hex, if_true, List.filter_append, hdrop2,
      List.nil_append, List.filter_cons, List.filter_nil]
    simp [valuesetToRow]
  · have hdrop : db.valuesets.filter (fun r => r.accession == vs.accession) = [] := by
      apply List.filter_eq_nil_iff.mpr
      intro r hr
      intro hcontra
      exact hex (List.any_eq_true.mpr ⟨r, hr, hcontra⟩)
    simp only [insert_valueset, hex, if_false, List.filter_append, hdrop,
      List.nil_append, List.filter_cons, List.filter_nil]
    simp [valuesetToRow]
    intro r hr hcontra
    exact hex (List.any_eq_true.mpr ⟨r, hr, by simp [hcontra]⟩)

/-! ### C2: `insert_valueset` replace semantics -/

/-- Claim C2: inserting a ValueSet whose accession already exists first
deletes the old row and every value row belonging to it, then inserts the
new row and its values, so the store afterwards holds, for that accession,
exactly the newly inserted ValueSet row and exactly its values.  (The
hypothesis that each inserted value carries its parent's accession in its
`valueset` field holds for every ValueSet the pipeline constructs.) -/
theorem C2_insert_valueset_replaces (db : DB) (vs : ValueSet)
    (hex : db.valuesets.any (fun r => r.accession == vs.accession) = true)
    (hvals : ∀ v ∈ vs.values, v.valueset = vs.accession) :
    (insert_valueset db vs).values.filter (fun v => v.valueset == vs.accession)
      = vs.values.map valueToRow
    ∧ (insert_valueset db vs).valuesets.filter (fun r => r.accession == vs.accession)
      = [valuesetToRow vs] := by
  have hmap : (vs.values.map valueToRow).filter (fun v => v.valueset == vs.accession)
      = vs.values.map valueToRow := by
    apply List.filter_eq_self.mpr
    intro r hr
    obtain ⟨v, hv, rfl⟩ := List.mem_map.mp hr
    simp [valueToRow, hvals v hv]
  have hdrop : (db.values.filter (fun v => !(v.valueset == vs.accession))).filter
      (fun v => v.valueset == vs.accession) = [] := by
    apply List.filter_eq_nil_iff.mpr
    intro v hv
    have hvv := (List.mem_filter.mp hv).2
    simp at hvv
    simp [hvv]
  have hdrop2 : (db.valuesets.filter (fun r => !(r.accession == vs.accession))).filter
      (fun r => r.accession == vs.accession) = [] := by
    apply List.filter_eq_nil_iff.mpr
    intro r hr
    have hrr := (List.mem_filter.mp hr).2
    simp at hrr
    simp [hrr]
  constructor
  · simp only [insert_valueset, hex, if_true, List.filter_append, hdrop, hmap,
      List.nil_append]
  · simp only [insert_valueset, hex, if_true, List.filter_append, hdrop2,
      List.nil_append, List.filter_cons, List.filter_nil]
    simp [valuesetToRow]

/-- Witness for C2 at a concrete store and replacement ValueSet. -/
theorem C2_witness :
    dbW.valuesets.any (fun r => r.accession == vsW.accession) = true
    ∧ (∀ v ∈ vsW.values, v.valueset = vsW.accession)
    ∧ (insert_valueset dbW vsW).values.filter (fun v => v.valueset == vsW.accession)
        = vsW.values.map valueToRow
    ∧ (insert_valueset dbW vsW).valuesets.filter (fun r => r.accession == vsW.accession)
        = [valuesetToRow vsW] := by
  have h := C2_insert_valueset_replaces dbW vsW (by decide)
    (by intro v hv; simp [vsW] at hv; subst hv; rfl)
  exact ⟨by decide, by intro v hv; simp [vsW] at hv; subst hv; rfl, h.1, h.2⟩

/-! ### C5: `list_valuesets` ordering and aggregate counts -/

theorem countsGet_bumpCount (acc : List (String × Nat)) (s k : String) :
    countsGet (bumpCount acc s) k = countsGet acc k + (if s == k then 1 else 0) := by
  induction acc with
  | nil =>
    by_cases h : s == k <;> simp [bumpCount, countsGet, List.find?_cons, h]
  | cons p rest ih =>
    by_cases hps : p.1 == s
    · have hps' : p.1 = s := by simpa using hps
      subst hps'
      by_cases hk : p.1 == k <;>
        simp [bumpCount, countsGet, List.find?_cons, hps, hk]
    · have hps' : ¬p.1 = s := by simpa using hps
      by_cases hk : p.1 == k
      · have hk' : p.1 = k := by simpa using hk
        have hsk : ¬(s == k) = true := by
          simp only [beq_iff_eq]
          intro h
          exact hps' (hk'.trans h.symm)
        simp [bumpCount, countsGet, List.find?_cons, hps, hk, hsk]
      · simp only [bumpCount, if_neg hps]
        simp only [countsGet, List.find?_cons, hk]
        simp only [countsGet] at ih
        exact ih

theorem countsGet_groupCounts (values : List ValueRow) (k : String) :
    countsGet (groupCounts values) k
      = (values.filter (fun v => v.valueset == k)).length := by
  suffices h : ∀ (vs : List ValueRow) (acc : List (String × Nat)) (k : String),
      countsGet (vs.foldl (fun a v => bumpCount a v.valueset) acc) k
        = countsGet acc k + (vs.filter (fun v => v.valueset == k)).length by
    have h0 := h values [] k
    simpa [groupCounts, countsGet] using h0
  intro vs
  induction vs with
  | nil => simp
  | cons v vs ih =>
    intro acc k
    simp only [List.foldl_cons, ih, countsGet_bumpCount, List.filter_cons]
    by_cases h : v.valueset == k <;> simp [h]
    all_goals omega

/-- Claim C5: `list_valuesets` returns the summaries of all stored
vocabularies sorted by accession ascending, and each summary's
`value_count` equals the total number of stored value rows whose `valueset`
equals that accession, deprecated rows included. -/
theorem C5_list_valuesets (db : DB) :
    (list_valuesets db).Pairwise (fun a b => a.accession ≤ b.accession)
    ∧ List.Perm ((list_valuesets db).map (fun s => s.accession))
        (db.valuesets.map (fun r => r.accession))
    ∧ ∀ s ∈ list_valuesets db,
        s.value_count = (db.values.filter (fun v => v.valueset == s.accession)).length := by
  have htrans : ∀ a b c : ValueSetRow,
      (fun a b : ValueSetRow => decide (a.accession ≤ b.accession)) a b = true →
      (fun a b : ValueSetRow => decide (a.accession ≤ b.accession)) b c = true →
      (fun a b : ValueSetRow => decide (a.accession ≤ b.accession)) a c = true := by
    intro a b c hab hbc
    simp only [decide_eq_true_eq] at *
    exact le_trans hab hbc
  have htotal : ∀ a b : ValueSetRow,
      ((fun a b : ValueSetRow => decide (a.accession ≤ b.accession)) a b
        || (fun a b : ValueSetRow => decide (a.accession ≤ b.accession)) b a) = true := by
    intro a b
    simpa using le_total a.accession b.accession
  refine ⟨?_, ?_, ?_⟩
  · have hs := List.sorted_mergeSort htrans htotal db.valuesets
    simp only [list_valuesets]
    rw [List.pairwise_map]
    exact hs.imp (fun h => by simpa using h)
  · simp only [list_valuesets, List.map_map]
    have hp := List.mergeSort_perm db.valuesets
      (fun a b : ValueSetRow => decide (a.accession ≤ b.accession))
    exact hp.map (fun r => r.accession)
  · intro s hs
    simp only [list_valuesets, List.mem_map] at hs
    obtain ⟨vs, -, rfl⟩ := hs
    simpa using countsGet_groupCounts db.values vs.accession

/-- Witness for C5 at a concrete store. -/
theorem C5_witness :
    summaryW ∈ list_valuesets dbW
    ∧ summaryW.value_count
      = (dbW.values.filter (fun v => v.valueset == summaryW.accession)).length := by
  have hmem : summaryW ∈ list_valuesets dbW := by
    simp only [list_valuesets, dbW, List.mergeSort_singleton, List.map_cons, List.map_nil]
    simp [rowA, summaryW, countsGet, groupCounts, bumpCount, valA1, valA2, List.find?]
  exact ⟨hmem, (C5_list_valuesets dbW).2.2 _ hmem⟩

/-! ### C4 and C9: pURL enrichment -/

/-- Claim C4: a term with an absent pURL is enriched with the pURL obtained
by substituting the configured base URL and the term's accession into the
configured term template (in particular, accession `SNOMED:73211009` under
the default base URL and term template yields
`https://api.example.com/terms/SNOMED:73211009`); a term whose pURL is
present is returned unchanged. -/
theorem C4_enrich_term_with_purl (st : Settings) (t : ValueSetValue) :
    (t.pURL = none →
      enrich_term_with_purl st t
        = { t with pURL := some (generate_purl_term st t.accession) })
    ∧ (∀ u, t.pURL = some u → enrich_term_with_purl st t = t)
    ∧ generate_purl_term
        { purl_base_url := "https://api.example.com"
          purl_valueset_template := "{base_url}/valuesets/{accession}"
          purl_term_template := "{base_url}/terms/{accession}" } "SNOMED:73211009"
      = "https://api.example.com/terms/SNOMED:73211009" := by
  refine ⟨?_, ?_, by rfl⟩
  · intro h
    simp [enrich_term_with_purl, h]
  · intro u h
    simp [enrich_term_with_purl, h]

/-- Witness for C4 at concrete inputs. -/
theorem C4_witness :
    termW.pURL = none
    ∧ enrich_term_with_purl {} termW
        = { termW with pURL := some (generate_purl_term {} termW.accession) }
    ∧ ({ termW with pURL := some "http://u" } : ValueSetValue).pURL = some "http://u"
    ∧ enrich_term_with_purl {} { termW with pURL := some "http://u" }
        = { termW with pURL := some "http://u" } :=
  ⟨rfl, (C4_enrich_term_with_purl {} termW).1 rfl, rfl,
    (C4_enrich_term_with_purl {} { termW with pURL := some "http://u" }).2.1 "http://u" rfl⟩

/-- Claim C9 (frame of enrichment): enrichment changes no field other than
pURL, and when the pURL is already present the term is returned entirely
unchanged. -/
theorem C9_enrich_frame (st : Settings) (t : ValueSetValue) :
    (t.pURL ≠ none → enrich_term_with_purl st t = t)
    ∧ (enrich_term_with_purl st t).accession = t.accession
    ∧ (enrich_term_with_purl st t).valueset = t.valueset
    ∧ (enrich_term_with_purl st t).label = t.label
    ∧ (enrich_term_with_purl st t).value = t.value
    ∧ (enrich_term_with_purl st t).identical_terms = t.identical_terms
    ∧ (enrich_term_with_purl st t).similar_terms = t.similar_terms
    ∧ (enrich_term_with_purl st t).definition = t.definition
    ∧ (enrich_term_with_purl st t).full_definition = t.full_definition
    ∧ (enrich_term_with_purl st t).deprecated = t.deprecated
    ∧ (enrich_term_with_purl st t).deprecated_to = t.deprecated_to
    ∧ (enrich_term_with_purl st t).additional = t.additional := by
  cases ht : t.pURL with
  | none => simp [enrich_term_with_purl, ht]
  | some u => simp [enrich_term_with_purl, ht]

/-- Witness for C9 at a concrete input. -/
theorem C9_witness :
    ({ termW with pURL := some "http://u" } : ValueSetValue).pURL ≠ none
    ∧ enrich_term_with_purl {} { termW with pURL := some "http://u" }
        = { termW with pURL := some "http://u" }
    ∧ (enrich_term_with_purl {} termW).label = termW.label :=
  ⟨by simp, (C9_enrich_frame {} { termW with pURL := some "http://u" }).1 (by simp),
    (C9_enrich_frame {} termW).2.2.2.1⟩

/-- Witness for C3 at concrete inputs. -/
theorem C3_witness :
    get_identical_terms (set_identical_terms ["http://x"]) = ["http://x"]
    ∧ get_identical_terms (set_identical_terms []) = []
    ∧ set_identical_terms [] = none
    ∧ get_identical_terms (some "not json") = []
    ∧ get_additional (set_additional [("a", Json.num 1)]) = [("a", Json.num 1)] := by
  refine ⟨(C3_json_columns_round_trip.1 ["http://x"]).2.2.1,
    (C3_json_columns_round_trip.1 []).2.2.1,
    (C3_json_columns_round_trip.1 []).1 rfl,
    (C3_json_columns_round_trip.2.2.1 "not json" (by rfl)).1,
    (C3_json_columns_round_trip.2.2.2 [("a", Json.num 1)]).2.2 (by simp)⟩

/-! ### C6: row-error collection aborts the whole file -/

/-- Claim C6: when one or more data rows fail validation, single-file
ingestion fails with an error enumerating the first (at most 10)
row-level errors, each labelled `Row i+2` for the data row at 0-based
index `i` (1-indexed human-facing numbering counting the header line),
and nothing is inserted: `ingest_csv` returns the same error and never
reaches the store. -/
theorem C6_row_errors_abort (st : Settings) (v : String → Bool) (db : DB)
    (header : CsvRecord) (records : List CsvRecord) (acc stem : String) (meta : ValueSetMeta)
    (hcols : requiredColumns.filter (fun c => !(header.contains c)) = [])
    (herr : rowErrors v acc (dictReaderRows (header :: records)) ≠ []) :
    load_valueset_from_csv st v (header :: records) acc meta
      = Except.error ("Failed to parse "
          ++ toString (rowErrors v acc (dictReaderRows (header :: records))).length
          ++ " rows:\n" ++ String.intercalate "\n"
              ((rowErrors v acc (dictReaderRows (header :: records))).take 10))
    ∧ ((rowErrors v acc (dictReaderRows (header :: records))).take 10).length ≤ 10
    ∧ (∀ i row e, records.get? i = some row
        → buildRowValue v acc (zipHeader header row) = Except.error e
        → ("Row " ++ toString (i + 2) ++ ": " ++ e)
            ∈ rowErrors v acc (dictReaderRows (header :: records)))
    ∧ ingest_csv st v db stem (header :: records) (some acc)
        (some meta.definition) (some meta.full_definition)
      = Except.error ("Failed to parse "
          ++ toString (rowErrors v acc (dictReaderRows (header :: records))).length
          ++ " rows:\n" ++ String.intercalate "\n"
              ((rowErrors v acc (dictReaderRows (header :: records))).take 10)) := by
  have hrecs : records ≠ [] := by
    intro h
    subst h
    exact herr rfl
  obtain ⟨r0, rs, hr⟩ := List.exists_cons_of_ne_nil hrecs
  have hload : ∀ m : ValueSetMeta, load_valueset_from_csv st v (header :: records) acc m
      = Except.error ("Failed to parse "
          ++ toString (rowErrors v acc (dictReaderRows (header :: records))).length
          ++ " rows:\n" ++ String.intercalate "\n"
              ((rowErrors v acc (dictReaderRows (header :: records))).take 10)) := by
    intro m
    subst hr
    simp only [load_valueset_from_csv, dictReaderRows, List.map_cons, List.isEmpty_cons,
      List.headD_cons, zipHeader_keys, hcols]
    rw [if_neg (by simp)]
    rw [if_neg (by simp)]
    rw [if_pos (by simpa [List.isEmpty_iff, dictReaderRows] using herr)]
  refine ⟨hload meta, ?_, ?_, ?_⟩
  · simp only [List.length_take]
    omega
  · intro i row e hget hbuild
    apply rowErrors_mem v acc _ i (zipHeader header row) e _ hbuild
    simp only [dictReaderRows]
    simp only [List.get?_eq_getElem?, List.getElem?_map] at hget ⊢
    simp [hget]
  · simp only [ingest_csv, Option.getD_some]
    rw [hload { definition := meta.definition, full_definition := meta.full_definition }]

/-- Witness for C6: a file with three data rows whose third row (0-based
index 2) carries an invalid pURL is rejected whole, the message references
`Row 4`, and nothing is inserted. -/
theorem C6_witness :
    requiredColumns.filter (fun c => !(csvHeaderW.contains c)) = []
    ∧ rowErrors vUrlW "vs1" (dictReaderRows (csvHeaderW :: csvRecordsW)) ≠ []
    ∧ load_valueset_from_csv {} vUrlW (csvHeaderW :: csvRecordsW) "vs1"
        { definition := "D", full_definition := "F" }
      = Except.error "Failed to parse 1 rows:\nRow 4: Validation error: invalid URL"
    ∧ ("Row 4: " ++ "Validation error: invalid URL")
        ∈ rowErrors vUrlW "vs1" (dictReaderRows (csvHeaderW :: csvRecordsW))
    ∧ ingest_csv {} vUrlW { valuesets := [], values := [] } "stem"
        (csvHeaderW :: csvRecordsW) (some "vs1") (some "D") (some "F")
      = Except.error "Failed to parse 1 rows:\nRow 4: Validation error: invalid URL" := by
  have h := C6_row_errors_abort {} vUrlW { valuesets := [], values := [] } csvHeaderW
    csvRecordsW "vs1" "stem" { definition := "D", full_definition := "F" }
    (by decide) (by decide)
  exact ⟨by decide, by decide, h.1,
    h.2.2.1 2 csvBadRowW "Validation error: invalid URL" (by decide) (by rfl), h.2.2.2⟩

/-! ### C7: empty file or missing required columns -/

/-- Claim C7: a CSV with no data rows fails with `CSV file is empty`; a CSV
whose header lacks required columns fails with an error naming exactly the
missing columns (in required-column order); in both cases `ingest_csv`
returns the error and nothing is inserted. -/
theorem C7_empty_or_missing_columns (st : Settings) (v : String → Bool) (db : DB)
    (stem acc : String) (d fd : Option String) :
    (∀ (csvRows : List CsvRecord) (m : ValueSetMeta), dictReaderRows csvRows = []
      → load_valueset_from_csv st v csvRows acc m = Except.error "CSV file is empty"
        ∧ ingest_csv st v db stem csvRows (some acc) d fd
            = Except.error "CSV file is empty")
    ∧ (∀ (header : CsvRecord) (records : List CsvRecord) (m : ValueSetMeta), records ≠ []
        → requiredColumns.filter (fun c => !(header.contains c)) ≠ []
        → load_valueset_from_csv st v (header :: records) acc m
            = Except.error ("CSV missing required columns: "
                ++ pyListRepr (requiredColumns.filter (fun c => !(header.contains c))))
          ∧ ingest_csv st v db stem (header :: records) (some acc) d fd
            = Except.error ("CSV missing required columns: "
                ++ pyListRepr (requiredColumns.filter (fun c => !(header.contains c))))) := by
  constructor
  · intro csvRows m hempty
    have hload : ∀ m2 : ValueSetMeta,
        load_valueset_from_csv st v csvRows acc m2 = Except.error "CSV file is empty" := by
      intro m2
      simp [load_valueset_from_csv, hempty]
    refine ⟨hload m, ?_⟩
    simp only [ingest_csv, Option.getD_some]
    rw [hload { definition := d.getD ("ValueSet: " ++ acc)
                full_definition := fd.getD ("Full definition for " ++ acc) }]
  · intro header records m hrecs hmiss
    obtain ⟨r0, rs, hr⟩ := List.exists_cons_of_ne_nil hrecs
    have hload : ∀ m2 : ValueSetMeta,
        load_valueset_from_csv st v (header :: records) acc m2
          = Except.error ("CSV missing required columns: "
              ++ pyListRepr (requiredColumns.filter (fun c => !(header.contains c)))) := by
      intro m2
      subst hr
      simp only [load_valueset_from_csv, dictReaderRows, List.map_cons, List.isEmpty_cons,
        List.headD_cons, zipHeader_keys]
      rw [if_neg (by simp)]
      rw [if_pos (by simpa [List.isEmpty_iff] using hmiss)]
    refine ⟨hload m, ?_⟩
    simp only [ingest_csv, Option.getD_some]
    rw [hload { definition := d.getD ("ValueSet: " ++ acc)
                full_definition := fd.getD ("Full definition for " ++ acc) }]

/-- Witness for C7: the empty file and a file missing the `label` column. -/
theorem C7_witness :
    dictReaderRows ([] : List CsvRecord) = []
    ∧ load_valueset_from_csv {} vUrlW [] "vs1" { definition := "D", full_definition := "F" }
        = Except.error "CSV file is empty"
    ∧ requiredColumns.filter (fun c => !(csvNoLabelHeaderW.contains c)) ≠ []
    ∧ load_valueset_from_csv {} vUrlW (csvNoLabelHeaderW :: [csvGoodRowW]) "vs1"
        { definition := "D", full_definition := "F" }
      = Except.error ("CSV missing required columns: " ++ pyListRepr ["label"])
    ∧ ingest_csv {} vUrlW { valuesets := [], values := [] } "stem"
        (csvNoLabelHeaderW :: [csvGoodRowW]) (some "vs1") none none
      = Except.error ("CSV missing required columns: " ++ pyListRepr ["label"]) := by
  have h1 := (C7_empty_or_missing_columns {} vUrlW { valuesets := [], values := [] }
    "stem" "vs1" none none).1 [] { definition := "D", full_definition := "F" } rfl
  have h2 := (C7_empty_or_missing_columns {} vUrlW { valuesets := [], values := [] }
    "stem" "vs1" none none).2 csvNoLabelHeaderW [csvGoodRowW]
    { definition := "D", full_definition := "F" } (by simp) (by decide)
  exact ⟨rfl, h1.1, by decide, h2.1, h2.2⟩

/-! ### C10: header-only files are rejected as empty; no zero-term vocabulary -/

/-- Claim C10: a CSV consisting of only a header row — even one that
contains every required column — is rejected with `CSV file is empty`
before required-column validation, and a successful load always carries at
least one term, so a vocabulary with zero terms can never be created
through the CSV pipeline. -/
theorem C10_header_only_rejected (st : Settings) (v : String → Bool) (db : DB)
    (stem acc : String) (d fd : Option String) :
    (∀ (header : CsvRecord) (m : ValueSetMeta),
        load_valueset_from_csv st v [header] acc m = Except.error "CSV file is empty")
    ∧ (∀ (csvRows : List CsvRecord) (m : ValueSetMeta) (vs : ValueSet),
        load_valueset_from_csv st v csvRows acc m = Except.ok vs → vs.values ≠ [])
    ∧ (∀ (csvRows : List CsvRecord) (db2 : DB),
        ingest_csv st v db stem csvRows (some acc) d fd = Except.ok db2
        → ∃ vs : ValueSet, vs.values ≠ [] ∧ db2 = insert_valueset db vs) := by
  have hvals : ∀ (csvRows : List CsvRecord) (m : ValueSetMeta) (vs : ValueSet),
      load_valueset_from_csv st v csvRows acc m = Except.ok vs → vs.values ≠ [] := by
    intro csvRows m vs h
    obtain ⟨-, -, -, hvv, herrs, hne⟩ := load_ok_fields st v csvRows acc m vs h
    have hall := rowErrors_nil_all_ok v acc _ herrs
    have hlen := rowValues_length_all_ok v acc _ hall
    intro hnil
    rw [hnil] at hvv
    have : (dictReaderRows csvRows).length = 0 := by
      rw [← hlen, ← hvv]
      rfl
    exact hne (List.length_eq_zero.mp this)
  refine ⟨?_, hvals, ?_⟩
  · intro header m
    rfl
  · intro csvRows db2 h
    simp only [ingest_csv, Option.getD_some] at h
    cases hl : load_valueset_from_csv st v csvRows acc
        { definition := d.getD ("ValueSet: " ++ acc)
          full_definition := fd.getD ("Full definition for " ++ acc) } with
    | error e => rw [hl] at h; cases h
    | ok vs =>
      rw [hl] at h
      cases h
      exact ⟨vs, hvals csvRows _ vs hl, rfl⟩

/-! ### C8: metadata precedence (corrected)

cli.py resolves `definition` / `full_definition` with precedence
CLI argument > YAML lookup > hardcoded default, each field independently —
but only in single-file mode (cli.py:117-132).  In directory mode
(cli.py:143-147) the CLI `--accession`, `--definition` and
`--full-definition` arguments are never consulted: `ingest_directory`
receives only the YAML metadata, so directory-mode precedence is
YAML > default. -/

/-- Counterexample to claim C8 as stated: in directory mode a CLI-supplied
definition (`clidef`) is ignored — the run is identical to one without any
CLI metadata arguments, and the stored definition is the hardcoded default
`ValueSet: vs1`, not `clidef`. -/
theorem C8_counterexample :
    cliRun {} vUrlW { valuesets := [], values := [] }
        (.directory [("vs1", [csvHeaderW, csvGoodRowW])])
        (some "cliacc") (some "clidef") (some "clifull") []
      = cliRun {} vUrlW { valuesets := [], values := [] }
          (.directory [("vs1", [csvHeaderW, csvGoodRowW])]) none none none []
    ∧ (ingest_directory {} vUrlW { valuesets := [], values := [] }
        [("vs1", [csvHeaderW, csvGoodRowW])] []).valuesets.map (fun r => r.definition)
      = ["ValueSet: vs1"]
    ∧ ¬(ingest_directory {} vUrlW { valuesets := [], values := [] }
        [("vs1", [csvHeaderW, csvGoodRowW])] []).valuesets.map (fun r => r.definition)
      = ["clidef"] := by
  refine ⟨rfl, rfl, by decide⟩

/-- Claim C8 as amended: for each of `definition` and `full_definition`
independently, single-file mode stores the CLI argument if provided (and
non-empty, by Python truthiness), else the YAML lookup, else the hardcoded
default; directory mode never consults the CLI arguments and stores the
YAML lookup if present, else the hardcoded default. -/
theorem C8_amended_metadata_precedence :
    (∀ (st : Settings) (v : String → Bool) (db : DB) (stem : String)
        (csvRows : List CsvRecord) (argsAcc argsDef argsFull : Option String)
        (yaml : List (String × YamlEntry)) (db2 : DB),
      cliRun st v db (.singleFile stem csvRows) argsAcc argsDef argsFull yaml
          = Except.ok db2
      → (db2.valuesets.filter
            (fun r => r.accession == pyOrStr argsAcc stem)).map
            (fun r => (r.definition, r.full_definition))
          = [(pyOrStr argsDef (pyOrStr (yamlGet yaml (pyOrStr argsAcc stem)).definition
                ("ValueSet: " ++ pyOrStr argsAcc stem)),
              pyOrStr argsFull (pyOrStr (yamlGet yaml (pyOrStr argsAcc stem)).full_definition
                ("Full definition for " ++ pyOrStr argsAcc stem)))])
    ∧ (∀ (st : Settings) (v : String → Bool) (db : DB)
        (files : List (String × List CsvRecord))
        (a1 d1 f1 a2 d2 f2 : Option String) (yaml : List (String × YamlEntry)),
        cliRun st v db (.directory files) a1 d1 f1 yaml
          = cliRun st v db (.directory files) a2 d2 f2 yaml)
    ∧ (∀ (st : Settings) (v : String → Bool) (db : DB) (stem : String)
        (csvRows : List CsvRecord) (yaml : List (String × YamlEntry)) (db2 : DB),
      ingest_csv st v db stem csvRows (some stem)
          (yamlGet yaml stem).definition (yamlGet yaml stem).full_definition
        = Except.ok db2
      → ingest_directory st v db [(stem, csvRows)] yaml = db2
        ∧ (db2.valuesets.filter (fun r => r.accession == stem)).map
            (fun r => (r.definition, r.full_definition))
          = [((yamlGet yaml stem).definition.getD ("ValueSet: " ++ stem),
              (yamlGet yaml stem).full_definition.getD ("Full definition for " ++ stem))]) := by
  refine ⟨?_, ?_, ?_⟩
  · intro st v db stem csvRows argsAcc argsDef argsFull yaml db2 h
    simp only [cliRun, ingest_csv, Option.getD_some] at h
    cases hl : load_valueset_from_csv st v csvRows (pyOrStr argsAcc stem)
        { definition := pyOrStr argsDef (pyOrStr (yamlGet yaml (pyOrStr argsAcc stem)).definition
            ("ValueSet: " ++ pyOrStr argsAcc stem))
          full_definition := pyOrStr argsFull
            (pyOrStr (yamlGet yaml (pyOrStr argsAcc stem)).full_definition
              ("Full definition for " ++ pyOrStr argsAcc stem)) } with
    | error e => rw [hl] at h; cases h
    | ok vs =>
      rw [hl] at h
      cases h
      obtain ⟨hacc, hdef, hfdef, -, -, -⟩ := load_ok_fields _ _ _ _ _ _ hl
      have hins := insert_valueset_filter_valuesets db vs
      rw [hacc] at hins
      rw [hins]
      simp [valuesetToRow, hdef, hfdef]
  · intro st v db files a1 d1 f1 a2 d2 f2 yaml
    rfl
  · intro st v db stem csvRows yaml db2 h
    constructor
    · simp only [ingest_directory, List.foldl_cons, List.foldl_nil, h]
    · simp only [ingest_csv, Option.getD_some] at h
      cases hl : load_valueset_from_csv st v csvRows stem
          { definition := (yamlGet yaml stem).definition.getD ("ValueSet: " ++ stem)
            full_definition :=
              (yamlGet yaml stem).full_definition.getD ("Full definition for " ++ stem) } with
      | error e => rw [hl] at h; cases h
      | ok vs =>
        rw [hl] at h
        cases h
        obtain ⟨hacc, hdef, hfdef, -, -, -⟩ := load_ok_fields _ _ _ _ _ _ hl
        have hins := insert_valueset_filter_valuesets db vs
        rw [hacc] at hins
        rw [hins]
        simp [valuesetToRow, hdef, hfdef]

/-- Witness for C8 (amended) at concrete inputs: in single-file mode a CLI
`--definition` wins while `full_definition` independently falls back to
the default; in directory mode the same file under YAML metadata stores
the YAML definition. -/
theorem C8_witness :
    (∃ db2, cliRun {} vUrlW { valuesets := [], values := [] }
        (.singleFile "vs1" [csvHeaderW, csvGoodRowW]) none (some "clidef") none []
        = Except.ok db2
      ∧ (db2.valuesets.filter (fun r => r.accession == pyOrStr none "vs1")).map
          (fun r => (r.definition, r.full_definition))
        = [("clidef", "Full definition for vs1")])
    ∧ (∃ db3, ingest_csv {} vUrlW { valuesets := [], values := [] } "vs1"
          [csvHeaderW, csvGoodRowW] (some "vs1")
          (yamlGet [("vs1", { definition := some "yamldef" })] "vs1").definition
          (yamlGet [("vs1", { definition := some "yamldef" })] "vs1").full_definition
        = Except.ok db3
      ∧ ingest_directory {} vUrlW { valuesets := [], values := [] }
          [("vs1", [csvHeaderW, csvGoodRowW])] [("vs1", { definition := some "yamldef" })]
        = db3
      ∧ (db3.valuesets.filter (fun r => r.accession == "vs1")).map
          (fun r => (r.definition, r.full_definition))
        = [("yamldef", "Full definition for vs1")]) := by
  constructor
  · refine ⟨_, rfl, ?_⟩
    exact (C8_amended_metadata_precedence.1 {} vUrlW { valuesets := [], values := [] }
      "vs1" [csvHeaderW, csvGoodRowW] none (some "clidef") none [] _ rfl)
  · refine ⟨_, rfl, ?_, ?_⟩
    · exact (C8_amended_metadata_precedence.2.2 {} vUrlW { valuesets := [], values := [] }
        "vs1" [csvHeaderW, csvGoodRowW] [("vs1", { definition := some "yamldef" })] _ rfl).1
    · exact (C8_amended_metadata_precedence.2.2 {} vUrlW { valuesets := [], values := [] }
        "vs1" [csvHeaderW, csvGoodRowW] [("vs1", { definition := some "yamldef" })] _ rfl).2

/-- Witness for C10: a header-only file with all required columns is
rejected as empty, and a concrete successful load has a non-empty value
list. -/
theorem C10_witness :
    load_valueset_from_csv {} vUrlW [requiredColumns] "vs1"
        { definition := "D", full_definition := "F" }
      = Except.error "CSV file is empty"
    ∧ ∃ vs, load_valueset_from_csv {} vUrlW [csvHeaderW, csvGoodRowW] "vs1"
          { definition := "D", full_definition := "F" } = Except.ok vs
        ∧ vs.values ≠ [] := by
  refine ⟨(C10_header_only_rejected {} vUrlW { valuesets := [], values := [] }
      "stem" "vs1" none none).1 requiredColumns { definition := "D", full_definition := "F" },
    ⟨_, rfl, (C10_header_only_rejected {} vUrlW { valuesets := [], values := [] }
      "stem" "vs1" none none).2.1 [csvHeaderW, csvGoodRowW]
      { definition := "D", full_definition := "F" } _ rfl⟩⟩

end ValuesetApi
